import Mathlib

/-!
# Verification of the FinFamily bank-scraper ingestion core

Shallow embedding of the ingestion & reconciliation pipeline of
`src/server.js` (with the `/scrape` connection-status handling of the
`src/unnamed/part_000` revision, the only revision that writes connection
status).  The external Supabase store is modelled as explicit state
(`Store`) threaded through the operations; each store call consumes one
entry of a fault script that decides whether the call behaves normally,
yields null data (a swallowed error, as the source destructures `data`
and ignores `error`), or throws (store unavailable), matching how the
source's `await supabase...` calls can resolve or reject.

JavaScript numeric amounts are modelled as `Int` (the claims under
verification concern sign, absolute value and equality only); `||`
fallbacks are modelled with their truthiness semantics (`0`, `""`,
`undefined` are falsy).  Transaction dates are modelled as valid ISO-8601
UTC timestamps, on which `new Date(d).toISOString()` is the identity, so
the source's `.toISOString().split('T')[0]` becomes taking the text
before `"T"`.
-/

set_option autoImplicit false

namespace FinFamily

/-- JS `a || b` on an optional string: falsy (`undefined` or `""`) falls back. -/
def jsOrStr : Option String → String → String
  | some s, d => if s = "" then d else s
  | none, d => d

/-- JS `a || b` on an optional number: falsy (`undefined` or `0`) falls back. -/
def jsOrInt : Option Int → Int → Int
  | some n, d => if n = 0 then d else n
  | none, d => d

/-- JS `a || null` on an optional string (`txn.memo || null`): `""` becomes null. -/
def jsOrNull : Option String → Option String
  | some s => if s = "" then none else some s
  | none => none

/-- `first.startsWith second` on character lists. -/
def charsStartWith : List Char → List Char → Bool
  | _, [] => true
  | [], _ :: _ => false
  | a :: as, b :: bs => a == b && charsStartWith as bs

/-- Contiguous-substring occurrence on character lists. -/
def charsContain : List Char → List Char → Bool
  | [], sub => sub.isEmpty
  | a :: t, sub => charsStartWith (a :: t) sub || charsContain t sub

/-- JS `s.includes(kw)`. -/
def strIncludes (s kw : String) : Bool :=
  charsContain s.data kw.data

/-- JS `s.toLowerCase()`, modelled character-wise for the ASCII range (the
rule keywords are Hebrew — caseless — and lowercase ASCII, so the ASCII
mapping is all the matching below can observe). -/
def strToLower (s : String) : String :=
  ⟨s.data.map Char.toLower⟩

/-- One categorization rule: keyword set and its category id (`autoCategorizeTxn`). -/
structure CatRule where
  keywords : List String
  category : Nat

/-- The static rule table of `autoCategorizeTxn` (src/server.js lines 166-177;
the same table appears in src/unnamed/part_000 lines 164-175, which is the
revision whose Hebrew keyword text survives undamaged in this checkout). -/
def categoryRules : List CatRule :=
  [ ⟨["סופר", "מרקט", "רמי לוי", "שופרסל", "יינות ביתן", "מחסני השוק", "victory"], 1⟩,
    ⟨["דלק", "פז", "סונול", "דור אלון", "תן", "גז"], 2⟩,
    ⟨["חניה", "פארקינג", "parking"], 3⟩,
    ⟨["מסעדה", "קפה", "cafe", "pizza", "פיצה", "סושי", "מאפה"], 4⟩,
    ⟨["חשמל", "מים", "גז", "ועד בית", "ארנונה"], 5⟩,
    ⟨["בזק", "hot", "cellcom", "partner", "פרטנר", "סלקום", "רכב"], 6⟩,
    ⟨["ביטוח", "insurance", "מגדל", "הפניקס", "כלל", "מנורה"], 7⟩,
    ⟨["רופא", "קופת חולים", "מכבי", "כללית", "בית חולים", "תרופ"], 8⟩,
    ⟨["סינמה", "קולנוע", "אמזון", "netflix", "spotify", "apple"], 9⟩,
    ⟨["משכורת", "שכר", "salary", "הכנסה"], 10⟩ ]

/-- `rule.keywords.some(kw => desc.includes(kw))`. -/
def ruleMatches (desc : String) (r : CatRule) : Bool :=
  r.keywords.any (fun kw => strIncludes desc kw)

/-- The `for (const rule of rules)` first-match loop of `autoCategorizeTxn`. -/
def findCategory (desc : String) : List CatRule → Option Nat
  | [] => none
  | r :: rs => if ruleMatches desc r then some r.category else findCategory desc rs

/-- `autoCategorizeTxn(description = '')` (src/server.js lines 164-182): the
input may be `undefined` (the call sites pass `txn.description`), in which
case the default parameter `''` applies; the description is lower-cased and
the rules are scanned in order, first match wins, no match gives `null`. -/
def autoCategorizeTxn (description : Option String) : Option Nat :=
  findCategory (strToLower (description.getD "")) categoryRules

/-- A raw scraped transaction (`account.txns[i]`). `originalAmount` is taken
as present (an absent one would make the source compute `NaN` amounts); the
other fields may be absent exactly as the source's `||` defaults allow. -/
structure RawTxn where
  date : String
  description : Option String
  chargedAmount : Option Int
  originalAmount : Int
  status : Option String
  originalCurrency : Option String
  memo : Option String

/-- A raw scraped account (`result.accounts[i]`). -/
structure RawAccount where
  accountNumber : Option String
  balance : Option Int
  txns : List RawTxn

/-- `txn.chargedAmount || txn.originalAmount`. -/
def txnAmountValue (t : RawTxn) : Int :=
  jsOrInt t.chargedAmount t.originalAmount

/-- `Math.abs(txn.chargedAmount || txn.originalAmount)`. -/
def txnAmount (t : RawTxn) : Int :=
  |txnAmountValue t|

/-- `(txn.chargedAmount || txn.originalAmount) < 0 ? 'expense' : 'income'`. -/
def txnType (t : RawTxn) : String :=
  if txnAmountValue t < 0 then "expense" else "income"

/-- Characters before the first `'T'` — `split('T')[0]`. -/
def charsBeforeT : List Char → List Char
  | [] => []
  | c :: cs => if c == 'T' then [] else c :: charsBeforeT cs

/-- `new Date(txn.date).toISOString().split('T')[0]` under the valid-ISO-input
modelling assumption stated in the header: the text before the first `'T'`
of the ISO timestamp, i.e. the calendar-day key. -/
def txnDate (t : RawTxn) : String :=
  ⟨charsBeforeT t.date.data⟩

/-- The description value the duplicate-check query compares against:
`.eq('description', txn.description)` passes the raw field, and supabase-js
serializes a JS `undefined` filter value as the literal text `undefined`. -/
def dupQueryDescription (t : RawTxn) : String :=
  match t.description with
  | some s => s
  | none => "undefined"

/-- The description stored by the insert: `txn.description || 'עסקה'`. -/
def insertDescription (t : RawTxn) : String :=
  jsOrStr t.description "עסקה"

/-- A row of the `transactions` table. -/
structure TxnRow where
  id : Nat
  userId : String
  accountId : Nat
  amount : Int
  type : String
  description : String
  date : String
  status : String
  categoryId : Option Nat
  source : String
  originalCurrency : String
  memo : Option String

/-- A row of the `accounts` table. -/
structure AccountRow where
  id : Nat
  userId : String
  accountNumber : String
  name : String
  balance : Int
  currency : String
  accountType : String
  lastSync : String

/-- A row of the `bank_connections` table (the status fields the core touches). -/
structure ConnRow where
  userId : String
  provider : String
  lastSync : String
  status : String
  errorMessage : Option String
  accountsCount : Option Nat

/-- Outcome of one store call: normal, null data (error swallowed by the
source, which destructures `data` and drops `error`), or a model of the
client throwing because the store is unavailable. -/
inductive Fault where
  | ok
  | nullData
  | down
deriving DecidableEq

/-- The external store: table contents, a fresh-id counter for inserts, a
ghost counter of connection-status writes, and the fault script consumed one
entry per store call (an exhausted script behaves normally). -/
structure Store where
  accounts : List AccountRow
  txnRows : List TxnRow
  connections : List ConnRow
  nextId : Nat
  statusWrites : Nat
  faults : List Fault

/-- Consume the next fault-script entry. -/
def popFault (st : Store) : Fault × Store :=
  match st.faults with
  | [] => (.ok, st)
  | f :: fs => (f, { st with faults := fs })

/-- Error message of a rejected store call. -/
def storeDownMsg : String := "store unavailable"

/-- Predicate of the duplicate-check query on `transactions`
(`user_id`, `account_id`, `amount`, `date`, `description`). -/
def txnKeyMatches (u : String) (aid : Nat) (amt : Int) (d desc : String) (r : TxnRow) : Bool :=
  r.userId == u && r.accountId == aid && r.amount == amt && r.date == d && r.description == desc

/-- The duplicate-check lookup: `select('id')...single()` returns a row only
when exactly one row matches; with zero or several matches `.single()`
errors and the destructured `data` is null. -/
def lookupTxn (u : String) (aid : Nat) (amt : Int) (d desc : String) (st : Store) :
    Except String (Option Nat) × Store :=
  let (f, st1) := popFault st
  match f with
  | .down => (.error storeDownMsg, st1)
  | .nullData => (.ok none, st1)
  | .ok =>
    match st1.txnRows.filter (txnKeyMatches u aid amt d desc) with
    | [r] => (.ok (some r.id), st1)
    | _ => (.ok none, st1)

/-- Insert into `transactions`; the source ignores the result, so a
null-data outcome (failed insert) is indistinguishable to it from success. -/
def insertTxn (row : TxnRow) (st : Store) : Except String Unit × Store :=
  let (f, st1) := popFault st
  match f with
  | .down => (.error storeDownMsg, st1)
  | .nullData => (.ok (), st1)
  | .ok =>
    (.ok (), { st1 with
      txnRows := st1.txnRows ++ [{ row with id := st1.nextId }],
      nextId := st1.nextId + 1 })

/-- Predicate of the account lookup (`user_id`, `account_number`). -/
def accKeyMatches (u key : String) (r : AccountRow) : Bool :=
  r.userId == u && r.accountNumber == key

/-- Account lookup by composite key, `.single()` semantics as for `lookupTxn`. -/
def lookupAccount (u key : String) (st : Store) : Except String (Option Nat) × Store :=
  let (f, st1) := popFault st
  match f with
  | .down => (.error storeDownMsg, st1)
  | .nullData => (.ok none, st1)
  | .ok =>
    match st1.accounts.filter (accKeyMatches u key) with
    | [r] => (.ok (some r.id), st1)
    | _ => (.ok none, st1)

/-- `accounts.update({balance, last_sync}).eq('id', accountId)`; result ignored
by the source, so a null-data outcome leaves the row unchanged. -/
def updateAccount (aid : Nat) (bal : Int) (now : String) (st : Store) :
    Except String Unit × Store :=
  let (f, st1) := popFault st
  match f with
  | .down => (.error storeDownMsg, st1)
  | .nullData => (.ok (), st1)
  | .ok =>
    (.ok (), { st1 with
      accounts := st1.accounts.map fun r =>
        if r.id == aid then { r with balance := bal, lastSync := now } else r })

/-- `accounts.insert(...).select('id').single()`: on success the fresh row's
id is returned; a null-data outcome is the `newAccount?.id` null case. -/
def insertAccount (row : AccountRow) (st : Store) : Except String (Option Nat) × Store :=
  let (f, st1) := popFault st
  match f with
  | .down => (.error storeDownMsg, st1)
  | .nullData => (.ok none, st1)
  | .ok =>
    (.ok (some st1.nextId), { st1 with
      accounts := st1.accounts ++ [{ row with id := st1.nextId }],
      nextId := st1.nextId + 1 })

/-- The lookup key `account.accountNumber || providerName`. -/
def accountKey (p : String) (acc : RawAccount) : String :=
  jsOrStr acc.accountNumber p

/-- The row built by the account-creation branch (id assigned by the store). -/
def mkAccountRow (u p now : String) (acc : RawAccount) : AccountRow :=
  { id := 0
    userId := u
    accountNumber := accountKey p acc
    name := p ++ " - " ++ jsOrStr acc.accountNumber "ראשי"
    balance := jsOrInt acc.balance 0
    currency := "ILS"
    accountType := "checking"
    lastSync := now }

/-- The find-or-create head of the account loop of `saveTransactionsToSupabase`
(src/server.js lines 82-117): look up by (user, account-number-or-provider);
if found, update balance and last-sync and keep the id; otherwise insert a
new row and take its id (possibly null). -/
def resolveAccountId (u p now : String) (acc : RawAccount) (st : Store) :
    Except String (Option Nat) × Store :=
  match lookupAccount u (accountKey p acc) st with
  | (.error e, st1) => (.error e, st1)
  | (.ok (some i), st1) =>
    match updateAccount i (jsOrInt acc.balance 0) now st1 with
    | (.error e, st2) => (.error e, st2)
    | (.ok _, st2) => (.ok (some i), st2)
  | (.ok none, st1) => insertAccount (mkAccountRow u p now acc) st1

/-- The row built by the transaction insert (src/server.js lines 141-155). -/
def mkTxnRow (u : String) (aid : Nat) (t : RawTxn) : TxnRow :=
  { id := 0
    userId := u
    accountId := aid
    amount := txnAmount t
    type := txnType t
    description := insertDescription t
    date := txnDate t
    status := jsOrStr t.status "completed"
    categoryId := autoCategorizeTxn t.description
    source := "bank_sync"
    originalCurrency := jsOrStr t.originalCurrency "ILS"
    memo := jsOrNull t.memo }

/-- The inner `for (const txn of account.txns)` loop of
`saveTransactionsToSupabase` (src/server.js lines 121-158), i.e. the spec's
`reconcileTransactions(tenantId, accountId, txnList)`: per transaction, run
the duplicate check; on a hit count it skipped, otherwise insert the
normalized row and count it saved; a rejected store call propagates. -/
def txnLoop (u : String) (aid : Nat) : List RawTxn → Store → Except String (Nat × Nat) × Store
  | [], st => (.ok (0, 0), st)
  | t :: rest, st =>
    match lookupTxn u aid (txnAmount t) (txnDate t) (dupQueryDescription t) st with
    | (.error e, st1) => (.error e, st1)
    | (.ok (some _), st1) =>
      match txnLoop u aid rest st1 with
      | (.error e, st2) => (.error e, st2)
      | (.ok (s, k), st2) => (.ok (s, k + 1), st2)
    | (.ok none, st1) =>
      match insertTxn (mkTxnRow u aid t) st1 with
      | (.error e, st2) => (.error e, st2)
      | (.ok _, st2) =>
        match txnLoop u aid rest st2 with
        | (.error e, st3) => (.error e, st3)
        | (.ok (s, k), st3) => (.ok (s + 1, k), st3)

/-- `saveTransactionsToSupabase(userId, accounts, providerName)`
(src/server.js lines 78-162): per account, find-or-create the account row; a
null account id skips the account's transactions (`if (!accountId) continue`);
otherwise run the transaction loop and accumulate the counters. -/
def saveTransactionsToSupabase (u : String) (accounts : List RawAccount) (p now : String) :
    Store → Except String (Nat × Nat) × Store :=
  fun st =>
    match accounts with
    | [] => (.ok (0, 0), st)
    | acc :: rest =>
      match resolveAccountId u p now acc st with
      | (.error e, st1) => (.error e, st1)
      | (.ok none, st1) => saveTransactionsToSupabase u rest p now st1
      | (.ok (some i), st1) =>
        match txnLoop u i acc.txns st1 with
        | (.error e, st2) => (.error e, st2)
        | (.ok (s, k), st2) =>
          match saveTransactionsToSupabase u rest p now st2 with
          | (.error e, st3) => (.error e, st3)
          | (.ok (s', k'), st3) => (.ok (s + s', k + k'), st3)

/-- The supported provider ids, the keys of `PROVIDER_MAP`
(src/server.js lines 24-39). -/
def PROVIDER_MAP : List String :=
  ["hapoalim", "leumi", "discount", "mizrahi", "otsarHahayal", "union",
   "beinleumi", "massad", "isracard", "cal", "max", "visaCal", "diners", "amex"]

/-- Outcome of the external scrape capability: the capability-level failure
flag with its optional `errorMessage`, or the scraped accounts. -/
inductive ScrapeResult where
  | failure (errorMessage : Option String)
  | success (accounts : List RawAccount)

/-- `new Error(result.errorMessage || 'Scraping failed').message`, the message
thrown by `scrapeProvider` when the capability reports failure. -/
def scrapeFailMsg (errorMessage : Option String) : String :=
  jsOrStr errorMessage "Scraping failed"

/-- The connection-status payload of the `/scrape` handler's upsert: the
success path supplies `last_sync`, `status`, `accounts_count`, the error path
supplies `last_sync`, `status`, `error_message`; columns absent from the
payload keep their stored value under `onConflict` upsert semantics. -/
inductive StatusPayload where
  | success (accountsCount : Nat)
  | error (msg : String)

/-- Apply a status payload to one `bank_connections` row. -/
def applyStatus (now : String) (pl : StatusPayload) (r : ConnRow) : ConnRow :=
  match pl with
  | .success c => { r with lastSync := now, status := "success", accountsCount := some c }
  | .error m => { r with lastSync := now, status := "error", errorMessage := some m }

/-- `bank_connections.upsert(..., { onConflict: 'user_id,provider' })`
(src/unnamed/part_000 lines 243-251 and 266-274).  The source ignores the
call's result, so the write is modelled as total; the ghost `statusWrites`
counter records that exactly one status write happened. -/
def upsertConnStatus (u p now : String) (pl : StatusPayload) (st : Store) : Store :=
  if st.connections.any (fun r => r.userId == u && r.provider == p) then
    { st with
      connections := st.connections.map fun r =>
        if r.userId == u && r.provider == p then applyStatus now pl r else r,
      statusWrites := st.statusWrites + 1 }
  else
    { st with
      connections := st.connections ++
        [applyStatus now pl
          { userId := u, provider := p, lastSync := now, status := "",
            errorMessage := none, accountsCount := none }],
      statusWrites := st.statusWrites + 1 }

/-- Response of the `/scrape` handler, after authentication and body
validation have passed. -/
inductive ScrapeResponse where
  | okJson (message : String) (totalSaved totalSkipped accountsCount : Nat)
  | badRequest (msg : String)
  | serverError (msg : String)

/-- The `/scrape` handler of src/unnamed/part_000 lines 231-281 (the revision
that tracks connection status), from the provider-map check on, with the
external scrape capability's outcome supplied as an input: unsupported
provider answers 400 before any scrape; otherwise the `try` block scrapes,
saves, upserts status `success` and answers the counts, and the `catch`
block upserts status `error` with the thrown message and answers 500. -/
def scrapeHandler (u p : String) (scr : ScrapeResult) (now : String) (st : Store) :
    ScrapeResponse × Store :=
  if PROVIDER_MAP.contains p then
    match scr with
    | .failure em =>
      let msg := scrapeFailMsg em
      (.serverError (jsOrStr (some msg) "שגיאה בסנכרון"),
        upsertConnStatus u p now (.error msg) st)
    | .success accounts =>
      match saveTransactionsToSupabase u accounts p now st with
      | (.error e, st1) =>
        (.serverError (jsOrStr (some e) "שגיאה בסנכרון"),
          upsertConnStatus u p now (.error e) st1)
      | (.ok (s, k), st1) =>
        (.okJson "סנכרון הושלם בהצלחה" s k accounts.length,
          upsertConnStatus u p now (.success accounts.length) st1)
  else
    (.badRequest ("ספק לא נתמך: " ++ p), st)

/-- One `bank_connections` row as the batch loop reads it (the credential
blob's decode outcome and the scrape outcome are supplied through
`ConnExternal` below). -/
structure Connection where
  provider : String
  userId : String

/-- Per-connection external behavior in the batch loop: the credential
decode throws, the scrape capability reports failure, or it returns accounts. -/
inductive ConnExternal where
  | decodeFail (msg : String)
  | scrapeFail (errorMessage : Option String)
  | scraped (accounts : List RawAccount)

/-- One entry of the `/sync-all` outcome list. -/
structure SyncOutcome where
  provider : String
  userId : String
  success : Bool
  saved : Option Nat
  skipped : Option Nat
  error : Option String

/-- The `for (const conn of connections)` loop of `/sync-all`
(src/server.js lines 266-281): per connection, inside `try`, decode the
credentials (a throw is caught and recorded as a failure entry), then check
`PROVIDER_MAP` — `if (!providerType) continue` skips the connection with no
entry — then scrape and save, recording a success entry with the counters or,
on a throw, a failure entry; the loop itself never throws. -/
def syncAll (now : String) : List (Connection × ConnExternal) → Store → List SyncOutcome × Store
  | [], st => ([], st)
  | (c, ext) :: rest, st =>
    match ext with
    | .decodeFail m =>
      let (os, st') := syncAll now rest st
      (⟨c.provider, c.userId, false, none, none, some m⟩ :: os, st')
    | .scrapeFail em =>
      if PROVIDER_MAP.contains c.provider then
        let (os, st') := syncAll now rest st
        (⟨c.provider, c.userId, false, none, none, some (scrapeFailMsg em)⟩ :: os, st')
      else
        syncAll now rest st
    | .scraped accounts =>
      if PROVIDER_MAP.contains c.provider then
        match saveTransactionsToSupabase c.userId accounts c.provider now st with
        | (.error e, st1) =>
          let (os, st') := syncAll now rest st1
          (⟨c.provider, c.userId, false, none, none, some e⟩ :: os, st')
        | (.ok (s, k), st1) =>
          let (os, st') := syncAll now rest st1
          (⟨c.provider, c.userId, true, some s, some k, none⟩ :: os, st')
      else
        syncAll now rest st

/-- Specification-side predicate: the connections for which the `/sync-all`
loop pushes an outcome entry — those whose credential decode throws (before
the provider check) and those whose provider id resolves in `PROVIDER_MAP`. -/
def producesEntry (ce : Connection × ConnExternal) : Bool :=
  match ce.2 with
  | .decodeFail _ => true
  | _ => PROVIDER_MAP.contains ce.1.provider

/-- Specification-side: the total number of transactions in the `txns` lists
of exactly those accounts for which the run of `saveTransactionsToSupabase`
obtained an account id, replayed over the same store states the run visits
(0 on store states where the run aborts). -/
def processedTxnTotal (u p now : String) : List RawAccount → Store → Nat
  | [], _ => 0
  | acc :: rest, st =>
    match resolveAccountId u p now acc st with
    | (.error _, _) => 0
    | (.ok none, st1) => processedTxnTotal u p now rest st1
    | (.ok (some i), st1) =>
      match txnLoop u i acc.txns st1 with
      | (.error _, _) => 0
      | (.ok _, st2) => acc.txns.length + processedTxnTotal u p now rest st2

/-- Number of stored transactions matching one duplicate-check key. -/
def dupCount (u : String) (aid : Nat) (amt : Int) (d desc : String) (st : Store) : Nat :=
  (st.txnRows.filter (txnKeyMatches u aid amt d desc)).length

/-- A fresh store: empty tables, id counter 0, no pending faults. -/
def emptyStore : Store :=
  { accounts := [], txnRows := [], connections := [], nextId := 0,
    statusWrites := 0, faults := [] }

/-- A store whose next call finds the store unavailable. -/
def downStore : Store :=
  { emptyStore with faults := [Fault.down] }

/-- A store whose next two calls report null data (swallowed errors). -/
def nullStore : Store :=
  { emptyStore with faults := [Fault.nullData, Fault.nullData] }

/-- A scraped transaction with no description field. -/
def tNoDesc : RawTxn :=
  ⟨"2024-01-05T00:00:00.000Z", none, some (-120), -120, none, none, none⟩

/-- A scraped transaction with `chargedAmount` present and equal to `0`. -/
def tZeroCharged : RawTxn :=
  ⟨"2024-01-05T10:00:00.000Z", some "x", some 0, -50, none, none, none⟩

/-- A scraped transaction with a nonzero `chargedAmount`. -/
def tCharged7 : RawTxn :=
  ⟨"2024-01-06T10:00:00.000Z", some "y", some 7, -50, none, none, none⟩

/-- A scraped transaction with a nonempty description. -/
def tSuper : RawTxn :=
  ⟨"2024-01-07T00:00:00.000Z", some "SuperMarket victory", some (-120), -120, none, none, none⟩

/-- A scraped account snapshot. -/
def accA : RawAccount :=
  ⟨some "123", some 1000, [tSuper]⟩

/-- Specification-side projection of the store fields the reconciliation
operations never touch: the ghost status-write counter and the
`bank_connections` table. -/
def ghostOf (st : Store) : Nat × List ConnRow :=
  (st.statusWrites, st.connections)

/-- Number of stored account rows matching one (tenant, account-number) key. -/
def accCount (u key : String) (st : Store) : Nat :=
  (st.accounts.filter (accKeyMatches u key)).length

/-- The id a `.single()` lookup on the account key would yield: the row id
when exactly one row matches, null data otherwise. -/
def accIdOf (u key : String) (st : Store) : Option Nat :=
  match st.accounts.filter (accKeyMatches u key) with
  | [r] => some r.id
  | _ => none

/-! ## Theorems -/

/-- The first-match-wins loop of `autoCategorizeTxn`: if rule `i` matches and
no earlier rule does, the scan returns rule `i`'s category. -/
theorem findCategory_first (desc : String) :
    ∀ (rs : List CatRule) (i : Nat) (h : i < rs.length),
      ruleMatches desc (rs.get ⟨i, h⟩) = true →
      (∀ j (hj : j < i), ruleMatches desc (rs.get ⟨j, Nat.lt_trans hj h⟩) = false) →
      findCategory desc rs = some ((rs.get ⟨i, h⟩).category) := by
  intro rs
  induction rs with
  | nil => intro i h; exact absurd h (Nat.not_lt_zero i)
  | cons r rs ih =>
    intro i h hm hearly
    cases i with
    | zero =>
      simp only [List.get] at hm ⊢
      simp [findCategory, hm]
    | succ j =>
      have h0 : ruleMatches desc r = false := by
        simpa using hearly 0 (Nat.succ_pos j)
      have hrec := ih j (Nat.lt_of_succ_lt_succ h) (by simpa using hm)
        (fun j' hj' => by simpa using hearly (j' + 1) (Nat.succ_lt_succ hj'))
      simpa [findCategory, h0] using hrec

/-- The scan returns `none` when no rule matches. -/
theorem findCategory_none (desc : String) :
    ∀ rs : List CatRule, (∀ r ∈ rs, ruleMatches desc r = false) →
      findCategory desc rs = none := by
  intro rs
  induction rs with
  | nil => intro _; rfl
  | cons r rs ih =>
    intro hall
    have h0 : ruleMatches desc r = false := hall r (List.mem_cons_self r rs)
    simp [findCategory, h0, ih fun r' hr' => hall r' (List.mem_cons_of_mem r hr')]

/-- C7: `autoCategorizeTxn` lower-cases its input and evaluates the rules in
their fixed priority order, returning the category id of the first rule with
a keyword occurring in the normalized description — so a description matched
by exactly one rule gets that rule's id, a description matched by two rules
gets the earlier rule's id, and a description matching no rule gets `none`
(not an error); determinism holds because the embedding is a pure function. -/
theorem autoCategorizeTxn_first_match_wins :
    (∀ (d : Option String) (i : Nat) (h : i < categoryRules.length),
        ruleMatches (strToLower (d.getD "")) (categoryRules.get ⟨i, h⟩) = true →
        (∀ j (hj : j < i),
          ruleMatches (strToLower (d.getD "")) (categoryRules.get ⟨j, Nat.lt_trans hj h⟩) = false) →
        autoCategorizeTxn d = some ((categoryRules.get ⟨i, h⟩).category))
    ∧ (∀ d : Option String,
        (∀ r ∈ categoryRules, ruleMatches (strToLower (d.getD "")) r = false) →
        autoCategorizeTxn d = none) := by
  constructor
  · intro d i h hm hearly
    exact findCategory_first _ _ i h hm hearly
  · intro d hnone
    exact findCategory_none _ _ hnone

/-- Witness for C7: `"Parking LOT"` matches only rule index 2 (keyword
`parking` after lower-casing) and is assigned its category 3. -/
theorem autoCategorizeTxn_first_match_wins_witness :
    autoCategorizeTxn (some "Parking LOT") = some ((categoryRules.get ⟨2, by decide⟩).category) :=
  autoCategorizeTxn_first_match_wins.1 (some "Parking LOT") 2 (by decide) (by decide)
    (by decide)

/-- C2 counterexample: for `chargedAmount = 0` the source's `||` fallback
consults `originalAmount` (here `-50`), giving amount `50` and type
`expense`, while the claim's `??` reading demands amount `abs 0 = 0` and
type `income`. -/
theorem txnAmount_zero_charged_counterexample :
    txnAmount tZeroCharged = 50 ∧ txnType tZeroCharged = "expense" ∧
    ¬(txnAmount tZeroCharged = 0 ∧ txnType tZeroCharged = "income") := by
  refine ⟨by decide, by decide, ?_⟩
  intro hcl
  exact absurd hcl.1 (by decide)

/-- C2 amended: the source computes `amount = abs(chargedAmount || originalAmount)`
and `type` from the sign of the same value under JS truthiness — a present
nonzero `chargedAmount` is used and `originalAmount` is not consulted, but an
absent OR zero `chargedAmount` falls back to `originalAmount` for both the
amount and the type. -/
theorem txnAmount_truthiness (t : RawTxn) :
    (∀ c : Int, t.chargedAmount = some c → c ≠ 0 →
        txnAmount t = |c| ∧ txnType t = (if c < 0 then "expense" else "income"))
    ∧ ((t.chargedAmount = none ∨ t.chargedAmount = some 0) →
        txnAmount t = |t.originalAmount| ∧
        txnType t = (if t.originalAmount < 0 then "expense" else "income")) := by
  constructor
  · intro c hc hc0
    simp [txnAmount, txnType, txnAmountValue, jsOrInt, hc, hc0]
  · rintro (hc | hc) <;> simp [txnAmount, txnType, txnAmountValue, jsOrInt, hc]

/-- Witness for the amended C2, at a nonzero charged amount and at a zero
charged amount. -/
theorem txnAmount_truthiness_witness :
    (txnAmount tCharged7 = |(7 : Int)| ∧
      txnType tCharged7 = (if (7 : Int) < 0 then "expense" else "income"))
    ∧ (txnAmount tZeroCharged = |(-50 : Int)| ∧
      txnType tZeroCharged = (if (-50 : Int) < 0 then "expense" else "income")) := by
  constructor
  · exact (txnAmount_truthiness tCharged7).1 7 rfl (by decide)
  · exact (txnAmount_truthiness tZeroCharged).2 (Or.inr rfl)

/-- With no pending fault, `popFault` behaves normally and keeps the store. -/
theorem popFault_nil {st : Store} (h : st.faults = []) : popFault st = (Fault.ok, st) := by
  simp [popFault, h]

/-- No-fault duplicate check with no matching row: null data, store kept. -/
theorem lookupTxn_nofault_none {u : String} {aid : Nat} {amt : Int} {d desc : String}
    {st : Store} (hf : st.faults = [])
    (hc : st.txnRows.filter (txnKeyMatches u aid amt d desc) = []) :
    lookupTxn u aid amt d desc st = (.ok none, st) := by
  simp [lookupTxn, popFault_nil hf, hc]

/-- No-fault duplicate check with exactly one matching row: that row's id. -/
theorem lookupTxn_nofault_one {u : String} {aid : Nat} {amt : Int} {d desc : String}
    {st : Store} {r : TxnRow} (hf : st.faults = [])
    (hc : st.txnRows.filter (txnKeyMatches u aid amt d desc) = [r]) :
    lookupTxn u aid amt d desc st = (.ok (some r.id), st) := by
  simp [lookupTxn, popFault_nil hf, hc]

/-- No-fault transaction insert: the row is appended with the fresh id. -/
theorem insertTxn_nofault {row : TxnRow} {st : Store} (hf : st.faults = []) :
    insertTxn row st =
      (.ok (), { st with
        txnRows := st.txnRows ++ [{ row with id := st.nextId }]
        nextId := st.nextId + 1 }) := by
  simp [insertTxn, popFault_nil hf]

/-- No-fault account lookup with no matching row. -/
theorem lookupAccount_nofault_none {u key : String} {st : Store} (hf : st.faults = [])
    (hc : st.accounts.filter (accKeyMatches u key) = []) :
    lookupAccount u key st = (.ok none, st) := by
  simp [lookupAccount, popFault_nil hf, hc]

/-- No-fault account lookup with exactly one matching row. -/
theorem lookupAccount_nofault_one {u key : String} {st : Store} {r : AccountRow}
    (hf : st.faults = []) (hc : st.accounts.filter (accKeyMatches u key) = [r]) :
    lookupAccount u key st = (.ok (some r.id), st) := by
  simp [lookupAccount, popFault_nil hf, hc]

/-- No-fault account update: balance and last-sync of the addressed row. -/
theorem updateAccount_nofault {aid : Nat} {bal : Int} {now : String} {st : Store}
    (hf : st.faults = []) :
    updateAccount aid bal now st =
      (.ok (), { st with accounts := st.accounts.map fun r =>
        if r.id == aid then { r with balance := bal, lastSync := now } else r }) := by
  simp [updateAccount, popFault_nil hf]

/-- No-fault account insert: the row is appended and its fresh id returned. -/
theorem insertAccount_nofault {row : AccountRow} {st : Store} (hf : st.faults = []) :
    insertAccount row st =
      (.ok (some st.nextId),
       { st with
         accounts := st.accounts ++ [{ row with id := st.nextId }]
         nextId := st.nextId + 1 }) := by
  simp [insertAccount, popFault_nil hf]

/-- C5: a store failure (rejected call) during one account's transaction
reconciliation propagates as a fatal error: whether the duplicate-check
lookup rejects (first conjunct) or the insert after a clean lookup rejects
(second conjunct), `txnLoop` returns the error, no transaction row is
written, no counter is produced, and the remaining transactions `rest` are
not processed at all (the result does not depend on them). -/
theorem txnLoop_store_down_propagates (u : String) (aid : Nat) (t : RawTxn)
    (rest : List RawTxn) (st : Store) :
    (∀ fs, st.faults = Fault.down :: fs →
      ∃ st', txnLoop u aid (t :: rest) st = (.error storeDownMsg, st') ∧
        st'.txnRows = st.txnRows ∧ st'.accounts = st.accounts)
    ∧ (∀ fs, st.faults = Fault.ok :: Fault.down :: fs →
      st.txnRows.filter
        (txnKeyMatches u aid (txnAmount t) (txnDate t) (dupQueryDescription t)) = [] →
      ∃ st', txnLoop u aid (t :: rest) st = (.error storeDownMsg, st') ∧
        st'.txnRows = st.txnRows ∧ st'.accounts = st.accounts) := by
  constructor
  · intro fs hfs
    refine ⟨{ st with faults := fs }, ?_, rfl, rfl⟩
    simp [txnLoop, lookupTxn, popFault, hfs]
  · intro fs hfs hfilter
    refine ⟨{ st with faults := fs }, ?_, rfl, rfl⟩
    simp [txnLoop, lookupTxn, insertTxn, popFault, hfs, hfilter]

/-- Witness for C5: a store that rejects its next call makes a two-element
reconciliation abort with nothing written. -/
theorem txnLoop_store_down_propagates_witness :
    ∃ st', txnLoop "u0" 1 [tSuper, tCharged7] downStore = (.error storeDownMsg, st') ∧
      st'.txnRows = downStore.txnRows ∧ st'.accounts = downStore.accounts :=
  (txnLoop_store_down_propagates "u0" 1 tSuper [tCharged7] downStore).1 [] rfl

/-- C9: the duplicate check queries the raw scraped description (serialized
`undefined` when absent) while the insert stores the placeholder-defaulted
description, so a transaction with no description is inserted with the
placeholder, can never be matched by a later duplicate check, and is saved
again on a re-run against the unchanged store — and the resulting store
satisfies the same no-`undefined`-row condition, so every further re-run
saves it yet again. -/
theorem txn_missing_description_resaved (u : String) (aid : Nat) (t : RawTxn) (st : Store)
    (hdesc : t.description = none) (hf : st.faults = [])
    (hclean : st.txnRows.filter (txnKeyMatches u aid (txnAmount t) (txnDate t) "undefined") = []) :
    insertDescription t = "עסקה" ∧ dupQueryDescription t = "undefined" ∧
    ∃ st1, txnLoop u aid [t] st = (.ok (1, 0), st1) ∧
      st1.txnRows = st.txnRows ++ [{ mkTxnRow u aid t with id := st.nextId }] ∧
      st1.txnRows.filter (txnKeyMatches u aid (txnAmount t) (txnDate t) "undefined") = [] ∧
      (txnLoop u aid [t] st1).1 = .ok (1, 0) := by
  have hq : dupQueryDescription t = "undefined" := by simp [dupQueryDescription, hdesc]
  have hins : insertDescription t = "עסקה" := by simp [insertDescription, hdesc, jsOrStr]
  refine ⟨hins, hq, ?_⟩
  set st1 : Store :=
    { st with
      txnRows := st.txnRows ++ [{ mkTxnRow u aid t with id := st.nextId }]
      nextId := st.nextId + 1 } with hst1
  have hf1 : st1.faults = [] := hf
  have h1 : txnLoop u aid [t] st = (.ok (1, 0), st1) := by
    simp only [txnLoop, hq, lookupTxn_nofault_none hf hclean, insertTxn_nofault hf]
  have hclean1 : st1.txnRows.filter
      (txnKeyMatches u aid (txnAmount t) (txnDate t) "undefined") = [] := by
    simp only [hst1, List.filter_append, hclean, List.nil_append]
    simp [txnKeyMatches, mkTxnRow, hins]
  have h2 : (txnLoop u aid [t] st1).1 = .ok (1, 0) := by
    simp only [txnLoop, hq, lookupTxn_nofault_none hf1 hclean1, insertTxn_nofault hf1]
  exact ⟨st1, h1, rfl, hclean1, h2⟩

/-- Witness for C9 at a concrete description-less transaction on the fresh
store. -/
theorem txn_missing_description_resaved_witness :
    insertDescription tNoDesc = "עסקה" ∧ dupQueryDescription tNoDesc = "undefined" ∧
    ∃ st1, txnLoop "u0" 1 [tNoDesc] emptyStore = (.ok (1, 0), st1) ∧
      st1.txnRows = emptyStore.txnRows ++
        [{ mkTxnRow "u0" 1 tNoDesc with id := emptyStore.nextId }] ∧
      st1.txnRows.filter
        (txnKeyMatches "u0" 1 (txnAmount tNoDesc) (txnDate tNoDesc) "undefined") = [] ∧
      (txnLoop "u0" 1 [tNoDesc] st1).1 = .ok (1, 0) :=
  txn_missing_description_resaved "u0" 1 tNoDesc emptyStore rfl rfl rfl

/-- C6: for a snapshot with no prior matching account row for the key
(tenant, accountNumber-or-providerLabel), `resolveAccountId` — the
find-or-create head of `saveTransactionsToSupabase` — creates exactly one
new row (display name `"<provider> - <accountNumber-or-default-label>"`,
balance `account.balance || 0`, fixed currency `ILS`, type `checking`) and
returns its id; a second call with the same key finds that single row,
updates its balance and last-sync timestamp in place, and returns the same
id without creating a second row. -/
theorem reconcileAccount_find_or_create (u p now now2 : String) (acc acc2 : RawAccount)
    (st : Store) (hf : st.faults = [])
    (hkey : accountKey p acc2 = accountKey p acc)
    (hempty : st.accounts.filter (accKeyMatches u (accountKey p acc)) = []) :
    (mkAccountRow u p now acc).name = p ++ " - " ++ jsOrStr acc.accountNumber "ראשי" ∧
    (mkAccountRow u p now acc).balance = jsOrInt acc.balance 0 ∧
    (mkAccountRow u p now acc).currency = "ILS" ∧
    (mkAccountRow u p now acc).accountType = "checking" ∧
    ∃ st1, resolveAccountId u p now acc st = (.ok (some st.nextId), st1) ∧
      st1.accounts = st.accounts ++ [{ mkAccountRow u p now acc with id := st.nextId }] ∧
      ∃ st2, resolveAccountId u p now2 acc2 st1 = (.ok (some st.nextId), st2) ∧
        st2.accounts = st1.accounts.map (fun r =>
          if r.id == st.nextId then
            { r with balance := jsOrInt acc2.balance 0, lastSync := now2 }
          else r) ∧
        st2.accounts.length = st1.accounts.length := by
  refine ⟨rfl, rfl, rfl, rfl, ?_⟩
  have h1 : resolveAccountId u p now acc st =
      (.ok (some st.nextId),
        { st with
          accounts := st.accounts ++ [{ mkAccountRow u p now acc with id := st.nextId }]
          nextId := st.nextId + 1 }) := by
    simp only [resolveAccountId, lookupAccount_nofault_none hf hempty, insertAccount_nofault hf]
  refine ⟨_, h1, rfl, ?_⟩
  have hf1 : ({ st with
      accounts := st.accounts ++ [{ mkAccountRow u p now acc with id := st.nextId }]
      nextId := st.nextId + 1 } : Store).faults = [] := hf
  have hfilt : ({ st with
      accounts := st.accounts ++ [{ mkAccountRow u p now acc with id := st.nextId }]
      nextId := st.nextId + 1 } : Store).accounts.filter
        (accKeyMatches u (accountKey p acc2)) =
      [{ mkAccountRow u p now acc with id := st.nextId }] := by
    rw [hkey]
    show (st.accounts ++ [{ mkAccountRow u p now acc with id := st.nextId }]).filter
      (accKeyMatches u (accountKey p acc)) = _
    rw [List.filter_append, hempty]
    simp [accKeyMatches, mkAccountRow]
  have h2 : resolveAccountId u p now2 acc2
      ({ st with
        accounts := st.accounts ++ [{ mkAccountRow u p now acc with id := st.nextId }]
        nextId := st.nextId + 1 }) =
      (.ok (some st.nextId),
        { st with
          accounts := (st.accounts ++
            [{ mkAccountRow u p now acc with id := st.nextId }]).map (fun (r : AccountRow) =>
              if r.id == st.nextId then
                { r with balance := jsOrInt acc2.balance 0, lastSync := now2 }
              else r)
          nextId := st.nextId + 1 }) := by
    simp only [resolveAccountId, lookupAccount_nofault_one hf1 hfilt, updateAccount_nofault hf1]
  exact ⟨_, h2, rfl, by simp⟩

/-- Witness for C6 at a concrete snapshot on the fresh store. -/
theorem reconcileAccount_find_or_create_witness :
    (mkAccountRow "u0" "hapoalim" "T1" accA).name =
      "hapoalim" ++ " - " ++ jsOrStr accA.accountNumber "ראשי" ∧
    (mkAccountRow "u0" "hapoalim" "T1" accA).balance = jsOrInt accA.balance 0 ∧
    (mkAccountRow "u0" "hapoalim" "T1" accA).currency = "ILS" ∧
    (mkAccountRow "u0" "hapoalim" "T1" accA).accountType = "checking" ∧
    ∃ st1, resolveAccountId "u0" "hapoalim" "T1" accA emptyStore =
        (.ok (some emptyStore.nextId), st1) ∧
      st1.accounts = emptyStore.accounts ++
        [{ mkAccountRow "u0" "hapoalim" "T1" accA with id := emptyStore.nextId }] ∧
      ∃ st2, resolveAccountId "u0" "hapoalim" "T2" accA st1 =
          (.ok (some emptyStore.nextId), st2) ∧
        st2.accounts = st1.accounts.map (fun r =>
          if r.id == emptyStore.nextId then
            { r with balance := jsOrInt accA.balance 0, lastSync := "T2" }
          else r) ∧
        st2.accounts.length = st1.accounts.length :=
  reconcileAccount_find_or_create "u0" "hapoalim" "T1" "T2" accA accA emptyStore rfl rfl rfl

/-- Each transaction of a completed `txnLoop` run increments exactly one of
the two counters, so they sum to the list length. -/
theorem txnLoop_counts (u : String) (aid : Nat) :
    ∀ (ts : List RawTxn) (st : Store) (a b : Nat) (st' : Store),
      txnLoop u aid ts st = (.ok (a, b), st') → a + b = ts.length := by
  intro ts
  induction ts with
  | nil =>
    intro st a b st' h
    simp only [txnLoop, Prod.mk.injEq, Except.ok.injEq] at h
    obtain ⟨⟨ha, hb⟩, -⟩ := h
    simp only [List.length_nil]
    omega
  | cons t rest ih =>
    intro st a b st' h
    rcases hlk : lookupTxn u aid (txnAmount t) (txnDate t) (dupQueryDescription t) st
      with ⟨res, st1⟩
    cases res with
    | error e => simp [txnLoop, hlk] at h
    | ok o =>
      cases o with
      | some v =>
        rcases hrec : txnLoop u aid rest st1 with ⟨r2, st2⟩
        cases r2 with
        | error e => simp [txnLoop, hlk, hrec] at h
        | ok sk =>
          obtain ⟨s, k⟩ := sk
          simp only [txnLoop, hlk, hrec, Prod.mk.injEq, Except.ok.injEq] at h
          obtain ⟨⟨ha, hb⟩, -⟩ := h
          have := ih st1 s k st2 hrec
          simp only [List.length_cons]
          omega
      | none =>
        rcases hins : insertTxn (mkTxnRow u aid t) st1 with ⟨ri, st2⟩
        cases ri with
        | error e => simp [txnLoop, hlk, hins] at h
        | ok un =>
          rcases hrec : txnLoop u aid rest st2 with ⟨r3, st3⟩
          cases r3 with
          | error e => simp [txnLoop, hlk, hins, hrec] at h
          | ok sk =>
            obtain ⟨s, k⟩ := sk
            simp only [txnLoop, hlk, hins, hrec, Prod.mk.injEq, Except.ok.injEq] at h
            obtain ⟨⟨ha, hb⟩, -⟩ := h
            have := ih st2 s k st3 hrec
            simp only [List.length_cons]
            omega

/-- C10: when `saveTransactionsToSupabase` returns, its counters sum to the
total number of transactions of exactly those accounts for which an account
id was obtained (accounts whose lookup-or-create yielded no id contribute to
neither counter), and — second conjunct — within one account each processed
transaction increments exactly one of the two counters, which start at 0. -/
theorem saveTransactions_counter_invariant (u p now : String) :
    (∀ (accounts : List RawAccount) (st : Store) (s k : Nat) (st' : Store),
      saveTransactionsToSupabase u accounts p now st = (.ok (s, k), st') →
      s + k = processedTxnTotal u p now accounts st)
    ∧ (∀ (aid : Nat) (ts : List RawTxn) (st : Store) (a b : Nat) (st' : Store),
      txnLoop u aid ts st = (.ok (a, b), st') → a + b = ts.length) := by
  constructor
  · intro accounts
    induction accounts with
    | nil =>
      intro st s k st' h
      simp only [saveTransactionsToSupabase, Prod.mk.injEq, Except.ok.injEq] at h
      obtain ⟨⟨hs, hk⟩, -⟩ := h
      simp only [processedTxnTotal]
      omega
    | cons acc rest ih =>
      intro st s k st' h
      rcases hres : resolveAccountId u p now acc st with ⟨r1, st1⟩
      cases r1 with
      | error e => simp [saveTransactionsToSupabase, hres] at h
      | ok o =>
        cases o with
        | none =>
          simp only [saveTransactionsToSupabase, hres] at h
          simp only [processedTxnTotal, hres]
          exact ih st1 s k st' h
        | some i =>
          rcases htl : txnLoop u i acc.txns st1 with ⟨r2, st2⟩
          cases r2 with
          | error e => simp [saveTransactionsToSupabase, hres, htl] at h
          | ok sk0 =>
            obtain ⟨s0, k0⟩ := sk0
            rcases hsv : saveTransactionsToSupabase u rest p now st2 with ⟨r3, st3⟩
            cases r3 with
            | error e => simp [saveTransactionsToSupabase, hres, htl, hsv] at h
            | ok sk1 =>
              obtain ⟨s1, k1⟩ := sk1
              simp only [saveTransactionsToSupabase, hres, htl, hsv, Prod.mk.injEq,
                Except.ok.injEq] at h
              obtain ⟨⟨hs, hk⟩, -⟩ := h
              simp only [processedTxnTotal, hres, htl]
              have h1 := txnLoop_counts u i acc.txns st1 s0 k0 st2 htl
              have h2 := ih st2 s1 k1 st3 hsv
              omega
  · intro aid ts st a b st' h
    exact txnLoop_counts u aid ts st a b st' h

/-- Witness for C10: a run whose single account's lookup and creation both
yield null data obtains no id, so both counters stay 0 and agree with the
processed-transaction total. -/
theorem saveTransactions_counter_invariant_witness :
    (0 : Nat) + 0 = processedTxnTotal "u0" "hapoalim" "T" [accA] nullStore :=
  (saveTransactions_counter_invariant "u0" "hapoalim" "T").1 [accA] nullStore 0 0 emptyStore rfl

/-- The `/sync-all` outcome list projects, entry for entry, onto the
connections that produce an entry (decode failures and resolvable
providers), in order. -/
theorem syncAll_outcomes_project (now : String) :
    ∀ (l : List (Connection × ConnExternal)) (st : Store),
      ((syncAll now l st).1).map (fun o => (o.provider, o.userId)) =
        (l.filter producesEntry).map (fun ce => (ce.1.provider, ce.1.userId)) := by
  intro l
  induction l with
  | nil => intro st; rfl
  | cons ce rest ih =>
    obtain ⟨c, ext⟩ := ce
    intro st
    cases ext with
    | decodeFail m =>
      rcases hrec : syncAll now rest st with ⟨os, st'⟩
      have hih := ih st
      rw [hrec] at hih
      simp [syncAll, hrec, producesEntry, hih]
    | scrapeFail em =>
      by_cases hc : c.provider ∈ PROVIDER_MAP
      · rcases hrec : syncAll now rest st with ⟨os, st'⟩
        have hih := ih st
        rw [hrec] at hih
        simp [syncAll, hrec, producesEntry, hc, hih]
      · have hih := ih st
        simp [syncAll, producesEntry, hc, hih]
    | scraped accounts =>
      by_cases hc : c.provider ∈ PROVIDER_MAP
      · rcases hsv : saveTransactionsToSupabase c.userId accounts c.provider now st
          with ⟨r, st1⟩
        cases r with
        | error e =>
          rcases hrec : syncAll now rest st1 with ⟨os, st'⟩
          have hih := ih st1
          rw [hrec] at hih
          simp [syncAll, hsv, hrec, producesEntry, hc, hih]
        | ok sk =>
          obtain ⟨s, k⟩ := sk
          rcases hrec : syncAll now rest st1 with ⟨os, st'⟩
          have hih := ih st1
          rw [hrec] at hih
          simp [syncAll, hsv, hrec, producesEntry, hc, hih]
      · have hih := ih st
        simp [syncAll, producesEntry, hc, hih]

/-- C4 counterexample: a batch of one connection whose provider id does not
resolve yields an empty outcome list, not the one-entry-per-connection list
the claim demands. -/
theorem syncAll_entry_count_counterexample :
    ((syncAll "t0" [(⟨"foo", "u1"⟩, ConnExternal.scraped [])] emptyStore).1).length = 0 ∧
    ([(⟨"foo", "u1"⟩, ConnExternal.scraped [])] :
      List (Connection × ConnExternal)).length = 1 := by
  exact ⟨rfl, rfl⟩

/-- C4 amended: the `/sync-all` loop runs the connections sequentially and
never fails itself (it is a total function); each connection-level failure is
caught and recorded as a `{provider, userId, success: false, error}` entry
and iteration continues; but the outcome list has exactly one entry per
connection whose credentials fail to decode or whose provider id resolves —
a connection whose credentials decode but whose provider id does not resolve
is silently skipped with no entry. -/
theorem syncAll_outcome_shape (now : String) :
    (∀ (l : List (Connection × ConnExternal)) (st : Store),
      ((syncAll now l st).1).length = (l.filter producesEntry).length)
    ∧ (∀ (l : List (Connection × ConnExternal)) (st : Store),
      ((syncAll now l st).1).map (fun o => (o.provider, o.userId)) =
        (l.filter producesEntry).map (fun ce => (ce.1.provider, ce.1.userId)))
    ∧ (∀ (l : List (Connection × ConnExternal)) (st : Store) (c : Connection) (m : String),
      (c, ConnExternal.decodeFail m) ∈ l →
      (⟨c.provider, c.userId, false, none, none, some m⟩ : SyncOutcome) ∈
        (syncAll now l st).1) := by
  refine ⟨?_, syncAll_outcomes_project now, ?_⟩
  · intro l st
    have h := congrArg List.length (syncAll_outcomes_project now l st)
    simpa using h
  · intro l
    induction l with
    | nil => intro st c m hm; exact absurd hm (List.not_mem_nil _)
    | cons ce rest ih =>
      obtain ⟨c0, ext0⟩ := ce
      intro st c m hm
      rcases List.mem_cons.mp hm with heq | htail
      · injection heq with hc0 hext0
        subst hc0
        subst hext0
        rcases hrec : syncAll now rest st with ⟨os, st'⟩
        simp [syncAll, hrec]
      · cases ext0 with
        | decodeFail m0 =>
          rcases hrec : syncAll now rest st with ⟨os, st'⟩
          have := ih st c m htail
          rw [hrec] at this
          simp [syncAll, hrec, this]
        | scrapeFail em =>
          by_cases hc : c0.provider ∈ PROVIDER_MAP
          · rcases hrec : syncAll now rest st with ⟨os, st'⟩
            have := ih st c m htail
            rw [hrec] at this
            simp [syncAll, hrec, hc, this]
          · have := ih st c m htail
            simp [syncAll, hc, this]
        | scraped accounts =>
          by_cases hc : c0.provider ∈ PROVIDER_MAP
          · rcases hsv : saveTransactionsToSupabase c0.userId accounts c0.provider now st
              with ⟨r, st1⟩
            cases r with
            | error e =>
              rcases hrec : syncAll now rest st1 with ⟨os, st'⟩
              have := ih st1 c m htail
              rw [hrec] at this
              simp [syncAll, hsv, hrec, hc, this]
            | ok sk =>
              obtain ⟨s, k⟩ := sk
              rcases hrec : syncAll now rest st1 with ⟨os, st'⟩
              have := ih st1 c m htail
              rw [hrec] at this
              simp [syncAll, hsv, hrec, hc, this]
          · have := ih st c m htail
            simp [syncAll, hc, this]

/-- Witness for the amended C4: a decode failure is recorded as a failure
entry with the provider, tenant and message. -/
theorem syncAll_outcome_shape_witness :
    (⟨"hapoalim", "u3", false, none, none, some "bad json"⟩ : SyncOutcome) ∈
      (syncAll "t2" [(⟨"hapoalim", "u3"⟩, ConnExternal.decodeFail "bad json")] emptyStore).1 :=
  (syncAll_outcome_shape "t2").2.2
    [(⟨"hapoalim", "u3"⟩, ConnExternal.decodeFail "bad json")] emptyStore
    ⟨"hapoalim", "u3"⟩ "bad json" (by simp)

/-- C8 counterexample: in the batch loop an unsupported provider id does not
make the attempt fail with an error — the connection is silently skipped and
the outcome list records nothing. -/
theorem unsupported_provider_batch_counterexample :
    syncAll "t1" [(⟨"bar", "u2"⟩, ConnExternal.scrapeFail (some "x"))] emptyStore =
      ([], emptyStore) := rfl

/-- C8 amended: a single-connection sync whose provider id does not resolve
fails immediately with the unsupported-provider error response, with no
scrape attempted and the store untouched (the response is the same for every
scrape outcome); in the batch scheduler such a connection is silently
skipped — no scrape, no outcome entry, no recorded error. -/
theorem unsupported_provider_handling (p : String)
    (hp : PROVIDER_MAP.contains p = false) :
    (∀ (u : String) (scr : ScrapeResult) (now : String) (st : Store),
      scrapeHandler u p scr now st = (.badRequest ("ספק לא נתמך: " ++ p), st))
    ∧ (∀ (now : String) (c : Connection) (ext : ConnExternal)
        (rest : List (Connection × ConnExternal)) (st : Store),
        c.provider = p → (∀ m, ext ≠ ConnExternal.decodeFail m) →
        syncAll now ((c, ext) :: rest) st = syncAll now rest st) := by
  have hp' : p ∉ PROVIDER_MAP := by simpa using hp
  constructor
  · intro u scr now st
    simp [scrapeHandler, hp']
  · intro now c ext rest st hc hext
    cases ext with
    | decodeFail m => exact absurd rfl (hext m)
    | scrapeFail em => simp [syncAll, hc, hp']
    | scraped accounts => simp [syncAll, hc, hp']

/-- Witness for the amended C8 on a concrete unsupported provider id. -/
theorem unsupported_provider_handling_witness :
    scrapeHandler "u2" "bar" (ScrapeResult.success []) "t1" emptyStore =
      (.badRequest ("ספק לא נתמך: " ++ "bar"), emptyStore) ∧
    syncAll "t1" [(⟨"bar", "u2"⟩, ConnExternal.scraped [])] emptyStore =
      syncAll "t1" [] emptyStore := by
  constructor
  · exact (unsupported_provider_handling "bar" (by decide)).1 "u2"
      (ScrapeResult.success []) "t1" emptyStore
  · exact (unsupported_provider_handling "bar" (by decide)).2 "t1" ⟨"bar", "u2"⟩
      (ConnExternal.scraped []) [] emptyStore rfl (fun m h => ConnExternal.noConfusion h)

/-- `popFault` never touches the ghost fields. -/
theorem popFault_ghost (st : Store) : ghostOf (popFault st).2 = ghostOf st := by
  cases h : st.faults <;> simp [popFault, ghostOf, h]

/-- The duplicate-check lookup never touches the ghost fields. -/
theorem lookupTxn_ghost (u : String) (aid : Nat) (amt : Int) (d desc : String) (st : Store) :
    ghostOf (lookupTxn u aid amt d desc st).2 = ghostOf st := by
  have hg := popFault_ghost st
  rcases hp : popFault st with ⟨f, st1⟩
  rw [hp] at hg
  cases f with
  | ok =>
    simp only [lookupTxn, hp]
    split <;> exact hg
  | nullData => simpa only [lookupTxn, hp] using hg
  | down => simpa only [lookupTxn, hp] using hg

/-- The transaction insert never touches the ghost fields. -/
theorem insertTxn_ghost (row : TxnRow) (st : Store) :
    ghostOf (insertTxn row st).2 = ghostOf st := by
  have hg := popFault_ghost st
  rcases hp : popFault st with ⟨f, st1⟩
  rw [hp] at hg
  cases f with
  | ok =>
    simp only [insertTxn, hp, ghostOf] at hg ⊢
    exact hg
  | nullData => simpa only [insertTxn, hp] using hg
  | down => simpa only [insertTxn, hp] using hg

/-- The account lookup never touches the ghost fields. -/
theorem lookupAccount_ghost (u key : String) (st : Store) :
    ghostOf (lookupAccount u key st).2 = ghostOf st := by
  have hg := popFault_ghost st
  rcases hp : popFault st with ⟨f, st1⟩
  rw [hp] at hg
  cases f with
  | ok =>
    simp only [lookupAccount, hp]
    split <;> exact hg
  | nullData => simpa only [lookupAccount, hp] using hg
  | down => simpa only [lookupAccount, hp] using hg

/-- The account update never touches the ghost fields. -/
theorem updateAccount_ghost (aid : Nat) (bal : Int) (now : String) (st : Store) :
    ghostOf (updateAccount aid bal now st).2 = ghostOf st := by
  have hg := popFault_ghost st
  rcases hp : popFault st with ⟨f, st1⟩
  rw [hp] at hg
  cases f with
  | ok =>
    simp only [updateAccount, hp, ghostOf] at hg ⊢
    exact hg
  | nullData => simpa only [updateAccount, hp] using hg
  | down => simpa only [updateAccount, hp] using hg

/-- The account insert never touches the ghost fields. -/
theorem insertAccount_ghost (row : AccountRow) (st : Store) :
    ghostOf (insertAccount row st).2 = ghostOf st := by
  have hg := popFault_ghost st
  rcases hp : popFault st with ⟨f, st1⟩
  rw [hp] at hg
  cases f with
  | ok =>
    simp only [insertAccount, hp, ghostOf] at hg ⊢
    exact hg
  | nullData => simpa only [insertAccount, hp] using hg
  | down => simpa only [insertAccount, hp] using hg

/-- The transaction loop never touches the ghost fields. -/
theorem txnLoop_ghost (u : String) (aid : Nat) :
    ∀ (ts : List RawTxn) (st : Store), ghostOf (txnLoop u aid ts st).2 = ghostOf st := by
  intro ts
  induction ts with
  | nil => intro st; rfl
  | cons t rest ih =>
    intro st
    rcases hlk : lookupTxn u aid (txnAmount t) (txnDate t) (dupQueryDescription t) st
      with ⟨res, st1⟩
    have g1 := lookupTxn_ghost u aid (txnAmount t) (txnDate t) (dupQueryDescription t) st
    rw [hlk] at g1
    cases res with
    | error e => simpa only [txnLoop, hlk] using g1
    | ok o =>
      cases o with
      | some v =>
        rcases hrec : txnLoop u aid rest st1 with ⟨r2, st2⟩
        have g2 := ih st1
        rw [hrec] at g2
        cases r2 with
        | error e => simpa only [txnLoop, hlk, hrec] using g2.trans g1
        | ok sk =>
          obtain ⟨s, k⟩ := sk
          simpa only [txnLoop, hlk, hrec] using g2.trans g1
      | none =>
        rcases hins : insertTxn (mkTxnRow u aid t) st1 with ⟨ri, st2⟩
        have gi := insertTxn_ghost (mkTxnRow u aid t) st1
        rw [hins] at gi
        cases ri with
        | error e => simpa only [txnLoop, hlk, hins] using gi.trans g1
        | ok un =>
          rcases hrec : txnLoop u aid rest st2 with ⟨r3, st3⟩
          have g2 := ih st2
          rw [hrec] at g2
          cases r3 with
          | error e => simpa only [txnLoop, hlk, hins, hrec] using (g2.trans gi).trans g1
          | ok sk =>
            obtain ⟨s, k⟩ := sk
            simpa only [txnLoop, hlk, hins, hrec] using (g2.trans gi).trans g1

/-- The account find-or-create never touches the ghost fields. -/
theorem resolveAccountId_ghost (u p now : String) (acc : RawAccount) (st : Store) :
    ghostOf (resolveAccountId u p now acc st).2 = ghostOf st := by
  rcases hlk : lookupAccount u (accountKey p acc) st with ⟨res, st1⟩
  have g1 := lookupAccount_ghost u (accountKey p acc) st
  rw [hlk] at g1
  cases res with
  | error e => simpa only [resolveAccountId, hlk] using g1
  | ok o =>
    cases o with
    | some i =>
      rcases hup : updateAccount i (jsOrInt acc.balance 0) now st1 with ⟨ru, st2⟩
      have g2 := updateAccount_ghost i (jsOrInt acc.balance 0) now st1
      rw [hup] at g2
      cases ru with
      | error e => simpa only [resolveAccountId, hlk, hup] using g2.trans g1
      | ok un => simpa only [resolveAccountId, hlk, hup] using g2.trans g1
    | none =>
      have g2 := insertAccount_ghost (mkAccountRow u p now acc) st1
      rcases hins : insertAccount (mkAccountRow u p now acc) st1 with ⟨ri, st2⟩
      rw [hins] at g2
      simpa only [resolveAccountId, hlk, hins] using g2.trans g1

/-- The whole reconciliation never touches the ghost fields: the connection
status is written by the orchestrator exactly, never by the reconcilers. -/
theorem saveTransactions_ghost (u p now : String) :
    ∀ (accounts : List RawAccount) (st : Store),
      ghostOf (saveTransactionsToSupabase u accounts p now st).2 = ghostOf st := by
  intro accounts
  induction accounts with
  | nil => intro st; rfl
  | cons acc rest ih =>
    intro st
    rcases hres : resolveAccountId u p now acc st with ⟨r1, st1⟩
    have g1 := resolveAccountId_ghost u p now acc st
    rw [hres] at g1
    cases r1 with
    | error e => simpa only [saveTransactionsToSupabase, hres] using g1
    | ok o =>
      cases o with
      | none =>
        have g2 := ih st1
        simpa only [saveTransactionsToSupabase, hres] using g2.trans g1
      | some i =>
        rcases htl : txnLoop u i acc.txns st1 with ⟨r2, st2⟩
        have g2 := txnLoop_ghost u i acc.txns st1
        rw [htl] at g2
        cases r2 with
        | error e => simpa only [saveTransactionsToSupabase, hres, htl] using g2.trans g1
        | ok sk =>
          obtain ⟨s0, k0⟩ := sk
          rcases hsv : saveTransactionsToSupabase u rest p now st2 with ⟨r3, st3⟩
          have g3 := ih st2
          rw [hsv] at g3
          cases r3 with
          | error e =>
            simpa only [saveTransactionsToSupabase, hres, htl, hsv]
              using (g3.trans g2).trans g1
          | ok sk1 =>
            obtain ⟨s1, k1⟩ := sk1
            simpa only [saveTransactionsToSupabase, hres, htl, hsv]
              using (g3.trans g2).trans g1

/-- A nonempty string passes through the `||` fallback. -/
theorem jsOrStr_some_of_ne {s : String} (d : String) (h : s ≠ "") :
    jsOrStr (some s) d = s := by
  simp [jsOrStr, h]

/-- The message thrown for a failed scrape is never empty. -/
theorem scrapeFailMsg_ne (em : Option String) : scrapeFailMsg em ≠ "" := by
  cases em with
  | none => simp [scrapeFailMsg, jsOrStr]
  | some s =>
    by_cases hs : s = "" <;> simp [scrapeFailMsg, jsOrStr, hs]

/-- The status upsert writes the ghost counter exactly once and touches no
other table. -/
theorem upsertConnStatus_writes (u p now : String) (pl : StatusPayload) (st : Store) :
    (upsertConnStatus u p now pl st).statusWrites = st.statusWrites + 1 ∧
    (upsertConnStatus u p now pl st).txnRows = st.txnRows ∧
    (upsertConnStatus u p now pl st).accounts = st.accounts := by
  by_cases h : st.connections.any (fun r => r.userId == u && r.provider == p) <;>
    simp [upsertConnStatus, h]

/-- C3: every `/scrape` sync attempt (for a supported provider) writes the
connection status exactly once, after the attempt concludes.  On the scrape
fatal path (capability reports failure, e.g. `"invalid credentials"`) the
status is written as `error` with that message, no transaction or account
table write happens, the saved/skipped counters are not computed (the 500
response carries only the error), and the request fails.  On the success
path the status is written as `success` with the accounts-count and the
counter response is returned.  On a persistence-failure path the status is
written as `error` with the store's message and the request fails.  In every
case the ghost write-counter increases by exactly one over the whole
attempt. -/
theorem scrape_attempt_status_write (u p now : String) (st : Store)
    (hp : p ∈ PROVIDER_MAP) :
    (∀ em, scrapeHandler u p (.failure em) now st =
        (.serverError (scrapeFailMsg em),
         upsertConnStatus u p now (.error (scrapeFailMsg em)) st) ∧
      (upsertConnStatus u p now (.error (scrapeFailMsg em)) st).statusWrites
        = st.statusWrites + 1 ∧
      (upsertConnStatus u p now (.error (scrapeFailMsg em)) st).txnRows = st.txnRows ∧
      (upsertConnStatus u p now (.error (scrapeFailMsg em)) st).accounts = st.accounts)
    ∧ (∀ (accounts : List RawAccount) (s k : Nat) (st1 : Store),
        saveTransactionsToSupabase u accounts p now st = (.ok (s, k), st1) →
        scrapeHandler u p (.success accounts) now st =
          (.okJson "סנכרון הושלם בהצלחה" s k accounts.length,
           upsertConnStatus u p now (.success accounts.length) st1) ∧
        (upsertConnStatus u p now (.success accounts.length) st1).statusWrites
          = st.statusWrites + 1)
    ∧ (∀ (accounts : List RawAccount) (e : String) (st1 : Store),
        saveTransactionsToSupabase u accounts p now st = (.error e, st1) →
        scrapeHandler u p (.success accounts) now st =
          (.serverError (jsOrStr (some e) "שגיאה בסנכרון"),
           upsertConnStatus u p now (.error e) st1) ∧
        (upsertConnStatus u p now (.error e) st1).statusWrites
          = st.statusWrites + 1) := by
  refine ⟨?_, ?_, ?_⟩
  · intro em
    refine ⟨?_, (upsertConnStatus_writes u p now _ st).1,
      (upsertConnStatus_writes u p now _ st).2.1,
      (upsertConnStatus_writes u p now _ st).2.2⟩
    simp [scrapeHandler, hp, jsOrStr_some_of_ne _ (scrapeFailMsg_ne em)]
  · intro accounts s k st1 hsv
    have hg := saveTransactions_ghost u p now accounts st
    rw [hsv] at hg
    have hw : st1.statusWrites = st.statusWrites :=
      congrArg Prod.fst hg
    refine ⟨?_, ?_⟩
    · simp [scrapeHandler, hp, hsv]
    · rw [(upsertConnStatus_writes u p now _ st1).1, hw]
  · intro accounts e st1 hsv
    have hg := saveTransactions_ghost u p now accounts st
    rw [hsv] at hg
    have hw : st1.statusWrites = st.statusWrites :=
      congrArg Prod.fst hg
    refine ⟨?_, ?_⟩
    · simp [scrapeHandler, hp, hsv]
    · rw [(upsertConnStatus_writes u p now _ st1).1, hw]

/-- Witness for C3 on the scrape-failure path with message
`"invalid credentials"` against the fresh store. -/
theorem scrape_attempt_status_write_witness :
    scrapeHandler "u0" "hapoalim" (.failure (some "invalid credentials")) "T" emptyStore =
      (.serverError (scrapeFailMsg (some "invalid credentials")),
       upsertConnStatus "u0" "hapoalim" "T"
         (.error (scrapeFailMsg (some "invalid credentials"))) emptyStore) ∧
    (upsertConnStatus "u0" "hapoalim" "T"
      (.error (scrapeFailMsg (some "invalid credentials"))) emptyStore).statusWrites
      = emptyStore.statusWrites + 1 ∧
    (upsertConnStatus "u0" "hapoalim" "T"
      (.error (scrapeFailMsg (some "invalid credentials"))) emptyStore).txnRows
      = emptyStore.txnRows ∧
    (upsertConnStatus "u0" "hapoalim" "T"
      (.error (scrapeFailMsg (some "invalid credentials"))) emptyStore).accounts
      = emptyStore.accounts :=
  (scrape_attempt_status_write "u0" "hapoalim" "T" emptyStore (by simp [PROVIDER_MAP])).1
    (some "invalid credentials")

/-- Appending one inserted row changes a duplicate-key count by the row's
match against that key. -/
theorem dupCount_append (u : String) (aid : Nat) (amt : Int) (d desc : String)
    (st : Store) (row : TxnRow) :
    dupCount u aid amt d desc
      { st with txnRows := st.txnRows ++ [row], nextId := st.nextId + 1 } =
    dupCount u aid amt d desc st +
      (if txnKeyMatches u aid amt d desc row then 1 else 0) := by
  by_cases hr : txnKeyMatches u aid amt d desc row <;>
    simp [dupCount, List.filter_append, hr]

/-- The row inserted for `t` matches exactly the duplicate key built from
`t`'s computed amount, day key and stored (placeholder-defaulted)
description. -/
theorem txnKeyMatches_mkTxnRow (u : String) (aid : Nat) (amt : Int) (d desc : String)
    (t : RawTxn) (i : Nat) :
    txnKeyMatches u aid amt d desc { mkTxnRow u aid t with id := i } = true ↔
      (txnAmount t = amt ∧ txnDate t = d ∧ insertDescription t = desc) := by
  simp [txnKeyMatches, mkTxnRow, and_assoc]

/-- Run-1 invariant: on a store with at most one row per duplicate key and a
transaction list whose descriptions are all nonempty, the loop completes,
keeps the at-most-one invariant, preserves exactly-one counts, and leaves
every processed transaction's duplicate key with exactly one stored row. -/
theorem txnLoop_establishes_dups (u : String) (aid : Nat) :
    ∀ (ts : List RawTxn) (st : Store),
      st.faults = [] →
      (∀ t ∈ ts, ∃ s, t.description = some s ∧ s ≠ "") →
      (∀ (amt : Int) (d desc : String), dupCount u aid amt d desc st ≤ 1) →
      ∃ a b st1, txnLoop u aid ts st = (.ok (a, b), st1) ∧
        st1.faults = [] ∧
        (∀ (amt : Int) (d desc : String), dupCount u aid amt d desc st1 ≤ 1) ∧
        (∀ (amt : Int) (d desc : String),
          dupCount u aid amt d desc st = 1 → dupCount u aid amt d desc st1 = 1) ∧
        (∀ t ∈ ts, dupCount u aid (txnAmount t) (txnDate t) (dupQueryDescription t) st1 = 1) := by
  intro ts
  induction ts with
  | nil =>
    intro st hf hdesc hu
    exact ⟨0, 0, st, rfl, hf, hu, fun _ _ _ h => h, by simp⟩
  | cons t rest ih =>
    intro st hf hdesc hu
    obtain ⟨s, hs, hsne⟩ := hdesc t (List.mem_cons_self t rest)
    have hq : dupQueryDescription t = s := by simp [dupQueryDescription, hs]
    have hid : insertDescription t = s := by simp [insertDescription, hs, jsOrStr, hsne]
    have hqi : insertDescription t = dupQueryDescription t := hid.trans hq.symm
    have hdesc' : ∀ t' ∈ rest, ∃ s', t'.description = some s' ∧ s' ≠ "" :=
      fun t' ht' => hdesc t' (List.mem_cons_of_mem t ht')
    have hcnt := hu (txnAmount t) (txnDate t) (dupQueryDescription t)
    rcases hF : st.txnRows.filter
        (txnKeyMatches u aid (txnAmount t) (txnDate t) (dupQueryDescription t))
      with _ | ⟨r, rs⟩
    · -- no stored row matches t's key: the insert path
      have h0 : dupCount u aid (txnAmount t) (txnDate t) (dupQueryDescription t) st = 0 := by
        simp [dupCount, hF]
      have hf' : ({ st with
          txnRows := st.txnRows ++ [{ mkTxnRow u aid t with id := st.nextId }]
          nextId := st.nextId + 1 } : Store).faults = [] := hf
      have hu' : ∀ (amt : Int) (d desc : String),
          dupCount u aid amt d desc
            { st with
              txnRows := st.txnRows ++ [{ mkTxnRow u aid t with id := st.nextId }]
              nextId := st.nextId + 1 } ≤ 1 := by
        intro amt d desc
        rw [dupCount_append]
        by_cases hkey : txnAmount t = amt ∧ txnDate t = d ∧ insertDescription t = desc
        · have hc : txnKeyMatches u aid amt d desc
              { mkTxnRow u aid t with id := st.nextId } = true :=
            (txnKeyMatches_mkTxnRow u aid amt d desc t st.nextId).mpr hkey
          obtain ⟨h1, h2, h3⟩ := hkey
          have hz : dupCount u aid amt d desc st = 0 := by
            rw [← h1, ← h2, ← h3, hqi]
            exact h0
          simp [hc, hz]
        · have hc : ¬ (txnKeyMatches u aid amt d desc
              { mkTxnRow u aid t with id := st.nextId } = true) :=
            fun hcc => hkey ((txnKeyMatches_mkTxnRow u aid amt d desc t st.nextId).mp hcc)
          simpa [hc] using hu amt d desc
      have hpres' : ∀ (amt : Int) (d desc : String),
          dupCount u aid amt d desc st = 1 →
          dupCount u aid amt d desc
            { st with
              txnRows := st.txnRows ++ [{ mkTxnRow u aid t with id := st.nextId }]
              nextId := st.nextId + 1 } = 1 := by
        intro amt d desc h1
        rw [dupCount_append]
        by_cases hkey : txnAmount t = amt ∧ txnDate t = d ∧ insertDescription t = desc
        · exfalso
          obtain ⟨ha, hb, hc⟩ := hkey
          rw [← ha, ← hb, ← hc, hqi] at h1
          omega
        · have hc : ¬ (txnKeyMatches u aid amt d desc
              { mkTxnRow u aid t with id := st.nextId } = true) :=
            fun hcc => hkey ((txnKeyMatches_mkTxnRow u aid amt d desc t st.nextId).mp hcc)
          simp [hc, h1]
      obtain ⟨a, b, st1, heq, hf1, hu1, hpres1, hall1⟩ := ih _ hf' hdesc' hu'
      refine ⟨a + 1, b, st1, ?_, hf1, hu1, ?_, ?_⟩
      · simp only [txnLoop, lookupTxn_nofault_none hf hF, insertTxn_nofault hf, heq]
      · intro amt d desc h1
        exact hpres1 amt d desc (hpres' amt d desc h1)
      · intro t' ht'
        rcases List.mem_cons.mp ht' with rfl | ht'
        · apply hpres1
          rw [dupCount_append]
          have hc : txnKeyMatches u aid (txnAmount t') (txnDate t') (dupQueryDescription t')
              { mkTxnRow u aid t' with id := st.nextId } = true :=
            (txnKeyMatches_mkTxnRow u aid _ _ _ t' st.nextId).mpr ⟨rfl, rfl, hqi⟩
          simp [hc, h0]
        · exact hall1 t' ht'
    · -- at least one stored row matches: with the invariant, exactly one
      cases rs with
      | cons r2 rs2 =>
        exfalso
        simp [dupCount, hF] at hcnt
      | nil =>
        obtain ⟨a, b, st1, heq, hf1, hu1, hpres1, hall1⟩ := ih st hf hdesc' hu
        refine ⟨a, b + 1, st1, ?_, hf1, hu1, hpres1, ?_⟩
        · simp only [txnLoop, lookupTxn_nofault_one hf hF, heq]
        · intro t' ht'
          rcases List.mem_cons.mp ht' with rfl | ht'
          · apply hpres1
            simp [dupCount, hF]
          · exact hall1 t' ht'

/-- Run-2: on a store holding exactly one row per processed duplicate key,
the loop skips every transaction and leaves the store unchanged. -/
theorem txnLoop_all_dups_skip (u : String) (aid : Nat) :
    ∀ (ts : List RawTxn) (st : Store),
      st.faults = [] →
      (∀ t ∈ ts, dupCount u aid (txnAmount t) (txnDate t) (dupQueryDescription t) st = 1) →
      txnLoop u aid ts st = (.ok (0, ts.length), st) := by
  intro ts
  induction ts with
  | nil => intro st _ _; rfl
  | cons t rest ih =>
    intro st hf hall
    have h1 := hall t (List.mem_cons_self t rest)
    obtain ⟨r, hr⟩ := List.length_eq_one.mp (by simpa [dupCount] using h1)
    have hrec := ih st hf (fun t' ht' => hall t' (List.mem_cons_of_mem t ht'))
    simp only [txnLoop, lookupTxn_nofault_one hf hr, hrec, List.length_cons]

/-- C1 counterexample: a transaction with no description is saved again by
the second run on the unchanged resulting store (the second run reports one
saved transaction, not zero), because the duplicate check compares the raw
absent description while the insert stored the placeholder. -/
theorem reconcile_not_idempotent_counterexample :
    (txnLoop "u0" 1 [tNoDesc] ((txnLoop "u0" 1 [tNoDesc] emptyStore).2)).1 =
      Except.ok (1, 0) ∧ (1 : Nat) ≠ 0 :=
  ⟨rfl, by decide⟩


/-- `popFault` only changes the fault script. -/
theorem popFault_tables (st : Store) :
    ((popFault st).2).txnRows = st.txnRows ∧ ((popFault st).2).accounts = st.accounts ∧
    ((popFault st).2).nextId = st.nextId := by
  cases h : st.faults <;> simp [popFault, h]

/-- The duplicate-check lookup changes no table. -/
theorem lookupTxn_tables (u : String) (aid : Nat) (amt : Int) (d desc : String) (st : Store) :
    ((lookupTxn u aid amt d desc st).2).txnRows = st.txnRows ∧
    ((lookupTxn u aid amt d desc st).2).accounts = st.accounts := by
  have hp2 := popFault_tables st
  rcases hp : popFault st with ⟨f, st1⟩
  rw [hp] at hp2
  cases f with
  | ok =>
    simp only [lookupTxn, hp]
    split <;> exact ⟨hp2.1, hp2.2.1⟩
  | nullData => simpa only [lookupTxn, hp] using ⟨hp2.1, hp2.2.1⟩
  | down => simpa only [lookupTxn, hp] using ⟨hp2.1, hp2.2.1⟩

/-- The transaction insert appends at most one row — carrying the inserted
row's account id — and leaves the accounts table unchanged. -/
theorem insertTxn_extend (row : TxnRow) (st : Store) :
    ∃ extra, ((insertTxn row st).2).txnRows = st.txnRows ++ extra ∧
      (∀ r ∈ extra, r.accountId = row.accountId) ∧
      ((insertTxn row st).2).accounts = st.accounts := by
  have hp2 := popFault_tables st
  rcases hp : popFault st with ⟨f, st1⟩
  rw [hp] at hp2
  cases f with
  | ok =>
    refine ⟨[{ row with id := st1.nextId }], ?_, ?_, ?_⟩
    · simp only [insertTxn, hp]
      rw [hp2.1]
    · intro r hr
      simp only [List.mem_singleton] at hr
      subst hr
      rfl
    · simp only [insertTxn, hp]
      exact hp2.2.1
  | nullData =>
    refine ⟨[], ?_, by simp, ?_⟩
    · simp only [insertTxn, hp, List.append_nil]
      exact hp2.1
    · simp only [insertTxn, hp]
      exact hp2.2.1
  | down =>
    refine ⟨[], ?_, by simp, ?_⟩
    · simp only [insertTxn, hp, List.append_nil]
      exact hp2.1
    · simp only [insertTxn, hp]
      exact hp2.2.1

/-- The transaction loop appends only rows of its own account id and leaves
the accounts table unchanged. -/
theorem txnLoop_extend (u : String) (aid : Nat) :
    ∀ (ts : List RawTxn) (st : Store),
      ∃ extra, ((txnLoop u aid ts st).2).txnRows = st.txnRows ++ extra ∧
        (∀ r ∈ extra, r.accountId = aid) ∧
        ((txnLoop u aid ts st).2).accounts = st.accounts := by
  intro ts
  induction ts with
  | nil => intro st; exact ⟨[], by simp [txnLoop], by simp, rfl⟩
  | cons t rest ih =>
    intro st
    rcases hlk : lookupTxn u aid (txnAmount t) (txnDate t) (dupQueryDescription t) st
      with ⟨res, st1⟩
    have hl := lookupTxn_tables u aid (txnAmount t) (txnDate t) (dupQueryDescription t) st
    rw [hlk] at hl
    cases res with
    | error e =>
      refine ⟨[], ?_, by simp, ?_⟩
      · simp only [txnLoop, hlk, List.append_nil]
        exact hl.1
      · simp only [txnLoop, hlk]
        exact hl.2
    | ok o =>
      cases o with
      | some v =>
        rcases hrec : txnLoop u aid rest st1 with ⟨r2, st2⟩
        obtain ⟨extra, he, hall, hacc⟩ := ih st1
        rw [hrec] at he hacc
        cases r2 with
        | error e =>
          refine ⟨extra, ?_, hall, ?_⟩
          · simp only [txnLoop, hlk, hrec]
            rw [he, hl.1]
          · simp only [txnLoop, hlk, hrec]
            rw [hacc, hl.2]
        | ok sk =>
          obtain ⟨s, k⟩ := sk
          refine ⟨extra, ?_, hall, ?_⟩
          · simp only [txnLoop, hlk, hrec]
            rw [he, hl.1]
          · simp only [txnLoop, hlk, hrec]
            rw [hacc, hl.2]
      | none =>
        rcases hins : insertTxn (mkTxnRow u aid t) st1 with ⟨ri, st2⟩
        obtain ⟨e1, hi1, hi2, hi3⟩ := insertTxn_extend (mkTxnRow u aid t) st1
        rw [hins] at hi1 hi3
        have hi2' : ∀ r ∈ e1, r.accountId = aid := fun r hr => hi2 r hr
        cases ri with
        | error e =>
          refine ⟨e1, ?_, hi2', ?_⟩
          · simp only [txnLoop, hlk, hins]
            rw [hi1, hl.1]
          · simp only [txnLoop, hlk, hins]
            rw [hi3, hl.2]
        | ok un =>
          rcases hrec : txnLoop u aid rest st2 with ⟨r3, st3⟩
          obtain ⟨e2, he2, hall2, hacc2⟩ := ih st2
          rw [hrec] at he2 hacc2
          have hsplit : st3.txnRows = st.txnRows ++ (e1 ++ e2) := by
            rw [he2, hi1, hl.1, List.append_assoc]
          have hallb : ∀ r ∈ e1 ++ e2, r.accountId = aid := by
            intro r hr
            rcases List.mem_append.mp hr with h | h
            · exact hi2' r h
            · exact hall2 r h
          cases r3 with
          | error e =>
            refine ⟨e1 ++ e2, ?_, hallb, ?_⟩
            · simp only [txnLoop, hlk, hins, hrec]
              exact hsplit
            · simp only [txnLoop, hlk, hins, hrec]
              rw [hacc2, hi3, hl.2]
          | ok sk =>
            obtain ⟨s, k⟩ := sk
            refine ⟨e1 ++ e2, ?_, hallb, ?_⟩
            · simp only [txnLoop, hlk, hins, hrec]
              exact hsplit
            · simp only [txnLoop, hlk, hins, hrec]
              rw [hacc2, hi3, hl.2]

/-- A store extension by rows of a different account id leaves a
duplicate-key count unchanged. -/
theorem dupCount_extend (u : String) (aid aid' : Nat) (amt : Int) (d desc : String)
    (st st' : Store) (extra : List TxnRow)
    (h : st'.txnRows = st.txnRows ++ extra)
    (hall : ∀ r ∈ extra, r.accountId = aid) (hne : aid' ≠ aid) :
    dupCount u aid' amt d desc st' = dupCount u aid' amt d desc st := by
  have hnil : extra.filter (txnKeyMatches u aid' amt d desc) = [] := by
    rw [List.filter_eq_nil_iff]
    intro r hr hp
    simp only [txnKeyMatches, Bool.and_eq_true, beq_iff_eq] at hp
    have h1 : r.accountId = aid' := hp.1.1.1.2
    have h2 : r.accountId = aid := hall r hr
    omega
  simp [dupCount, h, List.filter_append, hnil]

/-- The balance-update map preserves the account key predicate. -/
theorem accKeyMatches_update (u key : String) (i : Nat) (bal : Int) (now : String)
    (r : AccountRow) :
    accKeyMatches u key (if r.id == i then { r with balance := bal, lastSync := now } else r) =
      accKeyMatches u key r := by
  by_cases h : r.id == i <;> simp [accKeyMatches, h]

/-- The balance update preserves every resolved account id. -/
theorem accIdOf_update (u key : String) (i : Nat) (bal : Int) (now : String) (st : Store) :
    accIdOf u key { st with accounts := st.accounts.map fun r =>
      if r.id == i then { r with balance := bal, lastSync := now } else r } =
    accIdOf u key st := by
  have hcomp : (accKeyMatches u key ∘ fun r =>
      if r.id == i then { r with balance := bal, lastSync := now } else r) =
      accKeyMatches u key := funext (accKeyMatches_update u key i bal now)
  simp only [accIdOf]
  rw [List.filter_map, hcomp]
  rcases hfil : st.accounts.filter (accKeyMatches u key) with _ | ⟨r, rs⟩
  · simp
  · cases rs with
    | nil => by_cases h : r.id = i <;> simp [h]
    | cons r2 rs2 => simp

/-- The balance update preserves every account key count. -/
theorem accCount_update (u key : String) (i : Nat) (bal : Int) (now : String) (st : Store) :
    accCount u key { st with accounts := st.accounts.map fun r =>
      if r.id == i then { r with balance := bal, lastSync := now } else r } =
    accCount u key st := by
  have hcomp : (accKeyMatches u key ∘ fun r =>
      if r.id == i then { r with balance := bal, lastSync := now } else r) =
      accKeyMatches u key := funext (accKeyMatches_update u key i bal now)
  simp only [accCount]
  rw [List.filter_map, hcomp]
  simp

/-- Appending one created account row adjusts a key count by its match. -/
theorem accCount_append (u key : String) (st : Store) (row : AccountRow) :
    accCount u key { st with accounts := st.accounts ++ [row], nextId := st.nextId + 1 } =
      accCount u key st + (if accKeyMatches u key row then 1 else 0) := by
  by_cases hr : accKeyMatches u key row <;> simp [accCount, List.filter_append, hr]

/-- Which keys the created account row matches. -/
theorem accKeyMatches_mkAccountRow (u key p now : String) (acc : RawAccount) (i : Nat) :
    accKeyMatches u key { mkAccountRow u p now acc with id := i } = true ↔
      accountKey p acc = key := by
  simp [accKeyMatches, mkAccountRow]

/-- Inverting a resolved account id: exactly one row matches and carries it. -/
theorem accIdOf_inv {u key : String} {st : Store} {j : Nat} (h : accIdOf u key st = some j) :
    ∃ r, st.accounts.filter (accKeyMatches u key) = [r] ∧ r.id = j := by
  rcases hfil : st.accounts.filter (accKeyMatches u key) with _ | ⟨r, rs⟩
  · simp [accIdOf, hfil] at h
  · cases rs with
    | nil =>
      simp only [accIdOf, hfil, Option.some.injEq] at h
      exact ⟨r, rfl, h⟩
    | cons r2 rs2 =>
      simp [accIdOf, hfil] at h

/-- The find-or-create on an exactly-one-match store is the found-and-update
path. -/
theorem resolveAccountId_found (u p now2 : String) (acc : RawAccount) (st : Store)
    (r : AccountRow) (hf : st.faults = [])
    (hr : st.accounts.filter (accKeyMatches u (accountKey p acc)) = [r]) :
    resolveAccountId u p now2 acc st =
      (.ok (some r.id), { st with accounts := st.accounts.map fun r0 =>
        if r0.id == r.id then { r0 with balance := jsOrInt acc.balance 0, lastSync := now2 }
        else r0 }) := by
  simp only [resolveAccountId, lookupAccount_nofault_one hf hr, updateAccount_nofault hf]

/-- Run-1 account phase: under the at-most-one-row account invariant the
find-or-create returns an id, keeps the invariant, leaves transactions
untouched, resolves its own key to the returned id, and preserves every
already-resolved key id. -/
theorem resolveAccountId_run1 (u p now : String) (acc : RawAccount) (st : Store)
    (hf : st.faults = [])
    (hcnt : ∀ key, accCount u key st ≤ 1) :
    ∃ i st', resolveAccountId u p now acc st = (.ok (some i), st') ∧
      st'.faults = [] ∧
      st'.txnRows = st.txnRows ∧
      accIdOf u (accountKey p acc) st' = some i ∧
      (∀ key, accCount u key st' ≤ 1) ∧
      (∀ key j, accIdOf u key st = some j → accIdOf u key st' = some j) := by
  have hc := hcnt (accountKey p acc)
  rcases hfil : st.accounts.filter (accKeyMatches u (accountKey p acc)) with _ | ⟨r, rs⟩
  · refine ⟨st.nextId,
      { st with
        accounts := st.accounts ++ [{ mkAccountRow u p now acc with id := st.nextId }]
        nextId := st.nextId + 1 }, ?_, hf, rfl, ?_, ?_, ?_⟩
    · simp only [resolveAccountId, lookupAccount_nofault_none hf hfil, insertAccount_nofault hf]
    · have hm : accKeyMatches u (accountKey p acc)
          { mkAccountRow u p now acc with id := st.nextId } = true :=
        (accKeyMatches_mkAccountRow u (accountKey p acc) p now acc st.nextId).mpr rfl
      simp [accIdOf, List.filter_append, hfil, hm]
    · intro key
      rw [accCount_append]
      by_cases hk : accountKey p acc = key
      · have hm : accKeyMatches u key
            { mkAccountRow u p now acc with id := st.nextId } = true :=
          (accKeyMatches_mkAccountRow u key p now acc st.nextId).mpr hk
        have h0 : accCount u key st = 0 := by
          subst hk
          simp [accCount, hfil]
        simp [hm, h0]
      · have hm : ¬ (accKeyMatches u key
            { mkAccountRow u p now acc with id := st.nextId } = true) :=
          fun hh => hk ((accKeyMatches_mkAccountRow u key p now acc st.nextId).mp hh)
        simpa [hm] using hcnt key
    · intro key j hid
      obtain ⟨r0, hr0, hr0id⟩ := accIdOf_inv hid
      by_cases hk : accountKey p acc = key
      · exfalso
        subst hk
        rw [hfil] at hr0
        exact List.noConfusion hr0
      · have hm : ¬ (accKeyMatches u key
            { mkAccountRow u p now acc with id := st.nextId } = true) :=
          fun hh => hk ((accKeyMatches_mkAccountRow u key p now acc st.nextId).mp hh)
        have hfil' : (st.accounts ++
            [{ mkAccountRow u p now acc with id := st.nextId }]).filter
              (accKeyMatches u key) = [r0] := by
          rw [List.filter_append, hr0]
          simp [hm]
        simp [accIdOf, hfil', hr0id]
  · cases rs with
    | cons r2 rs2 =>
      exfalso
      simp [accCount, hfil] at hc
    | nil =>
      refine ⟨r.id,
        { st with accounts := st.accounts.map fun r0 =>
          if r0.id == r.id then { r0 with balance := jsOrInt acc.balance 0, lastSync := now }
          else r0 }, ?_, hf, rfl, ?_, ?_, ?_⟩
      · exact resolveAccountId_found u p now acc st r hf hfil
      · rw [accIdOf_update]
        simp [accIdOf, hfil]
      · intro key
        rw [accCount_update]
        exact hcnt key
      · intro key j hid
        rw [accIdOf_update]
        exact hid

/-- Run-1 of the whole `saveTransactionsToSupabase`: the run completes,
keeps both at-most-one invariants, preserves resolved ids and exactly-one
duplicate counts, and leaves every processed account's key resolving to the
id under which its transactions all have exactly one stored row. -/
theorem save_establishes (u p now : String) :
    ∀ (accounts : List RawAccount) (st : Store),
      st.faults = [] →
      (∀ acc ∈ accounts, ∀ t ∈ RawAccount.txns acc, ∃ s, t.description = some s ∧ s ≠ "") →
      (∀ (aid : Nat) (amt : Int) (d desc : String), dupCount u aid amt d desc st ≤ 1) →
      (∀ key, accCount u key st ≤ 1) →
      ∃ s k st1, saveTransactionsToSupabase u accounts p now st = (.ok (s, k), st1) ∧
        st1.faults = [] ∧
        (∀ key, accCount u key st1 ≤ 1) ∧
        (∀ key j, accIdOf u key st = some j → accIdOf u key st1 = some j) ∧
        (∀ (aid : Nat) (amt : Int) (d desc : String), dupCount u aid amt d desc st1 ≤ 1) ∧
        (∀ (aid : Nat) (amt : Int) (d desc : String),
          dupCount u aid amt d desc st = 1 → dupCount u aid amt d desc st1 = 1) ∧
        (∀ acc ∈ accounts, ∃ i, accIdOf u (accountKey p acc) st1 = some i ∧
          ∀ t ∈ RawAccount.txns acc,
            dupCount u i (txnAmount t) (txnDate t) (dupQueryDescription t) st1 = 1) := by
  intro accounts
  induction accounts with
  | nil =>
    intro st hf hdesc hdup hacc
    exact ⟨0, 0, st, rfl, hf, hacc, fun _ _ h => h, hdup, fun _ _ _ _ h => h, by simp⟩
  | cons acc rest ih =>
    intro st hf hdesc hdup hacc
    obtain ⟨i, st', hres, hf', htr', hidacc, hacc', hidpres⟩ :=
      resolveAccountId_run1 u p now acc st hf hacc
    have hdupEq' : ∀ (aid : Nat) (amt : Int) (d desc : String),
        dupCount u aid amt d desc st' = dupCount u aid amt d desc st := by
      intro aid amt d desc
      simp [dupCount, htr']
    have hdup' : ∀ (aid : Nat) (amt : Int) (d desc : String),
        dupCount u aid amt d desc st' ≤ 1 := by
      intro aid amt d desc
      rw [hdupEq']
      exact hdup aid amt d desc
    obtain ⟨a, b, st'', htl, hf'', hdupI, hpresI, hallI⟩ :=
      txnLoop_establishes_dups u i acc.txns st' hf'
        (hdesc acc (List.mem_cons_self acc rest)) (fun amt d desc => hdup' i amt d desc)
    obtain ⟨extra, hext0, hextaid, hextacc0⟩ := txnLoop_extend u i acc.txns st'
    rw [htl] at hext0 hextacc0
    have hext : st''.txnRows = st'.txnRows ++ extra := hext0
    have hextacc : st''.accounts = st'.accounts := hextacc0
    have hdup'' : ∀ (aid : Nat) (amt : Int) (d desc : String),
        dupCount u aid amt d desc st'' ≤ 1 := by
      intro aid amt d desc
      by_cases haid : aid = i
      · subst haid
        exact hdupI amt d desc
      · rw [dupCount_extend u i aid amt d desc st' st'' extra hext hextaid haid]
        exact hdup' aid amt d desc
    have hpres'' : ∀ (aid : Nat) (amt : Int) (d desc : String),
        dupCount u aid amt d desc st = 1 → dupCount u aid amt d desc st'' = 1 := by
      intro aid amt d desc h1
      by_cases haid : aid = i
      · subst haid
        exact hpresI amt d desc (by rw [hdupEq']; exact h1)
      · rw [dupCount_extend u i aid amt d desc st' st'' extra hext hextaid haid, hdupEq']
        exact h1
    have hidEq'' : ∀ key, accIdOf u key st'' = accIdOf u key st' := by
      intro key
      simp [accIdOf, hextacc]
    have hacc'' : ∀ key, accCount u key st'' ≤ 1 := by
      intro key
      have : accCount u key st'' = accCount u key st' := by simp [accCount, hextacc]
      rw [this]
      exact hacc' key
    have hdesc' : ∀ acc' ∈ rest, ∀ t ∈ RawAccount.txns acc',
        ∃ s, t.description = some s ∧ s ≠ "" :=
      fun acc' h' => hdesc acc' (List.mem_cons_of_mem acc h')
    obtain ⟨s1, k1, st3, hsv, hf3, hacc3, hidpres3, hdup3, hpres3, hall3⟩ :=
      ih st'' hf'' hdesc' hdup'' hacc''
    refine ⟨a + s1, b + k1, st3, ?_, hf3, hacc3, ?_, hdup3, ?_, ?_⟩
    · simp only [saveTransactionsToSupabase, hres, htl, hsv]
    · intro key j hj
      apply hidpres3
      rw [hidEq'']
      exact hidpres key j hj
    · intro aid amt d desc h1
      exact hpres3 aid amt d desc (hpres'' aid amt d desc h1)
    · intro acc' hmem
      rcases List.mem_cons.mp hmem with rfl | hmem
      · refine ⟨i, ?_, ?_⟩
        · apply hidpres3
          rw [hidEq'']
          exact hidacc
        · intro t ht
          exact hpres3 i _ _ _ (hallI t ht)
      · exact hall3 acc' hmem

/-- Run-2 of the whole `saveTransactionsToSupabase`: when every account key
resolves and every transaction's duplicate key already has exactly one
stored row, the run saves nothing. -/
theorem save_all_skip (u p now2 : String) :
    ∀ (accounts : List RawAccount) (st : Store),
      st.faults = [] →
      (∀ acc ∈ accounts, ∃ i, accIdOf u (accountKey p acc) st = some i ∧
        ∀ t ∈ RawAccount.txns acc,
          dupCount u i (txnAmount t) (txnDate t) (dupQueryDescription t) st = 1) →
      ∃ k st2, saveTransactionsToSupabase u accounts p now2 st = (.ok (0, k), st2) := by
  intro accounts
  induction accounts with
  | nil =>
    intro st hf h
    exact ⟨0, st, rfl⟩
  | cons acc rest ih =>
    intro st hf h
    obtain ⟨i, hid, htxns⟩ := h acc (List.mem_cons_self acc rest)
    obtain ⟨r, hr, hrid⟩ := accIdOf_inv hid
    have hres := resolveAccountId_found u p now2 acc st r hf hr
    rw [hrid] at hres
    have hfU : ({ st with accounts := st.accounts.map fun r0 =>
        if r0.id == i then { r0 with balance := jsOrInt acc.balance 0, lastSync := now2 }
        else r0 } : Store).faults = [] := hf
    have htxnsU : ∀ t ∈ RawAccount.txns acc,
        dupCount u i (txnAmount t) (txnDate t) (dupQueryDescription t)
          { st with accounts := st.accounts.map fun r0 =>
            if r0.id == i then { r0 with balance := jsOrInt acc.balance 0, lastSync := now2 }
            else r0 } = 1 :=
      fun t ht => htxns t ht
    have hskip := txnLoop_all_dups_skip u i acc.txns _ hfU htxnsU
    have hrest : ∀ acc' ∈ rest, ∃ i', accIdOf u (accountKey p acc')
        { st with accounts := st.accounts.map fun r0 =>
          if r0.id == i then { r0 with balance := jsOrInt acc.balance 0, lastSync := now2 }
          else r0 } = some i' ∧
        ∀ t ∈ RawAccount.txns acc',
          dupCount u i' (txnAmount t) (txnDate t) (dupQueryDescription t)
            { st with accounts := st.accounts.map fun r0 =>
              if r0.id == i then { r0 with balance := jsOrInt acc.balance 0, lastSync := now2 }
              else r0 } = 1 := by
      intro acc' h'
      obtain ⟨i', hi', ht'⟩ := h acc' (List.mem_cons_of_mem acc h')
      refine ⟨i', ?_, fun t ht => ht' t ht⟩
      rw [accIdOf_update]
      exact hi'
    obtain ⟨k2, st2, hrec⟩ := ih _ hfU hrest
    refine ⟨acc.txns.length + k2, st2, ?_⟩
    simp only [saveTransactionsToSupabase, hres, hskip, hrec]

/-- C1 amended: re-running the reconciliation on the unchanged resulting
store saves zero additional transactions, provided every transaction carries
a nonempty description (otherwise the duplicate check can never match the
stored placeholder) and the starting store holds at most one row per
duplicate key and per account key (otherwise `.single()` yields null data
and rows are re-created); the first conjunct states this for the spec's
`reconcileTransactions(tenantId, accountId, txnList)` contract — the
per-account transaction loop — where the second run moreover skips every
transaction and leaves the store unchanged; the second conjunct states it
for the whole `saveTransactionsToSupabase`, whose second run reports zero
saved transactions. -/
theorem reconcile_idempotent_for_described :
    (∀ (u : String) (aid : Nat) (ts : List RawTxn) (st : Store),
      st.faults = [] →
      (∀ t ∈ ts, ∃ s, t.description = some s ∧ s ≠ "") →
      (∀ (amt : Int) (d desc : String), dupCount u aid amt d desc st ≤ 1) →
      ∃ a b st1, txnLoop u aid ts st = (.ok (a, b), st1) ∧
        txnLoop u aid ts st1 = (.ok (0, ts.length), st1))
    ∧ (∀ (u p now now2 : String) (accounts : List RawAccount) (st : Store),
      st.faults = [] →
      (∀ acc ∈ accounts, ∀ t ∈ RawAccount.txns acc, ∃ s, t.description = some s ∧ s ≠ "") →
      (∀ (aid : Nat) (amt : Int) (d desc : String), dupCount u aid amt d desc st ≤ 1) →
      (∀ key, accCount u key st ≤ 1) →
      ∃ s k st1 k2 st2,
        saveTransactionsToSupabase u accounts p now st = (.ok (s, k), st1) ∧
        saveTransactionsToSupabase u accounts p now2 st1 = (.ok (0, k2), st2)) := by
  constructor
  · intro u aid ts st hf hdesc hu
    obtain ⟨a, b, st1, heq, hf1, -, -, hall⟩ :=
      txnLoop_establishes_dups u aid ts st hf hdesc hu
    exact ⟨a, b, st1, heq, txnLoop_all_dups_skip u aid ts st1 hf1 hall⟩
  · intro u p now now2 accounts st hf hdesc hdup hacc
    obtain ⟨s, k, st1, hrun1, hf1, -, -, -, -, hall⟩ :=
      save_establishes u p now accounts st hf hdesc hdup hacc
    obtain ⟨k2, st2, hrun2⟩ := save_all_skip u p now2 accounts st1 hf1 hall
    exact ⟨s, k, st1, k2, st2, hrun1, hrun2⟩

/-- Witness for the amended C1: a described transaction at the loop level,
and a one-account payload through the whole save, both on the fresh store. -/
theorem reconcile_idempotent_for_described_witness :
    (∃ a b st1, txnLoop "u0" 1 [tSuper] emptyStore = (.ok (a, b), st1) ∧
      txnLoop "u0" 1 [tSuper] st1 = (.ok (0, [tSuper].length), st1))
    ∧ (∃ s k st1 k2 st2,
      saveTransactionsToSupabase "u0" [accA] "hapoalim" "T1" emptyStore = (.ok (s, k), st1) ∧
      saveTransactionsToSupabase "u0" [accA] "hapoalim" "T2" st1 = (.ok (0, k2), st2)) := by
  constructor
  · exact reconcile_idempotent_for_described.1 "u0" 1 [tSuper] emptyStore rfl
      (by
        intro t ht
        rcases List.mem_cons.mp ht with rfl | hnil
        · exact ⟨"SuperMarket victory", rfl, by decide⟩
        · exact absurd hnil (List.not_mem_nil t))
      (by intro amt d desc; simp [dupCount, emptyStore])
  · exact reconcile_idempotent_for_described.2 "u0" "hapoalim" "T1" "T2" [accA] emptyStore rfl
      (by
        intro acc hacc t ht
        rcases List.mem_cons.mp hacc with rfl | hnil
        · rcases List.mem_cons.mp ht with rfl | hnil2
          · exact ⟨"SuperMarket victory", rfl, by decide⟩
          · exact absurd hnil2 (List.not_mem_nil t)
        · exact absurd hnil (List.not_mem_nil acc))
      (by intro aid amt d desc; simp [dupCount, emptyStore])
      (by intro key; simp [accCount, emptyStore])

end FinFamily
